import Mathlib

/-! # Music library service: verification development

A shallow embedding of the Go packages `models`, `repository`, `service` and
`api` of the music library, followed by theorems about them.

Conventions of the embedding.

* Go `int` is the 64-bit signed integer of the amd64/arm64 targets.  Values are
  mathematical integers (`Int`); every arithmetic operation of the source is
  followed by `wrapInt`, the two's-complement wrap-around of Go.
* A Go `string` is a Lean `String` (valid UTF-8, which is what the `text`
  columns of the store hold); `len` of a string never exceeds `maxInt`.
* A Go `error` value is a `GoError`; `fmt.Errorf` keeps its format string and
  its arguments unrendered.
* A run-time panic (slice bounds out of range) is the `Outcome.panic` result.
* The relational store, the metadata endpoint and the clock are explicit
  state: `World`.  Calls that leave the process are recorded in `World.trace`.
* The locale of the database server, which decides the case folding of
  `ILIKE`, is a parameter of the listing query: `Locale`.
* Logging (`zap`) has no effect on any result and is left out.
-/

set_option autoImplicit false

namespace MusicLibrary

/-! ## Go runtime -/

/-- Smallest value of Go `int` (64 bit). -/
def minInt : Int := -9223372036854775808

/-- Largest value of Go `int` (64 bit). -/
def maxInt : Int := 9223372036854775807

/-- Two's-complement wrap-around of an arithmetic result into Go `int`. -/
def wrapInt (x : Int) : Int :=
  (x + 9223372036854775808) % 18446744073709551616 - 9223372036854775808

/-- The value is representable as a Go `int`. -/
def IsInt (x : Int) : Prop := minInt ≤ x ∧ x ≤ maxInt

instance (x : Int) : Decidable (IsInt x) := by unfold IsInt; infer_instance

/-- Go `error` values built by this program and by the libraries it calls. -/
inductive GoError where
  /-- The sentinel `sql.ErrNoRows`. -/
  | ErrNoRows
  /-- Any other error reported by the SQL driver. -/
  | driver (msg : String)
  /-- Transport error of `http.Client.Get`. -/
  | transport (msg : String)
  /-- Error of the JSON decoder. -/
  | decode (msg : String)
  /-- The call `fmt.Errorf(format, args...)` with integer arguments and no wrapped cause. -/
  | errorf (format : String) (args : List Int)
  /-- The call `fmt.Errorf(format, cause)` where the format ends in `%w`. -/
  | wrapf (format : String) (cause : GoError)
  deriving DecidableEq, Repr

deriving instance DecidableEq for Except

/-- Result of a Go function returning `(T, error)` that may also panic. -/
inductive Outcome (α : Type) where
  | ok (val : α)
  | error (err : GoError)
  | panic
  deriving DecidableEq, Repr

/-- Go slice expression `xs[lo:hi]` on a slice whose capacity equals its
length; `none` is the run-time panic "slice bounds out of range". -/
def sliceExpr {α : Type} (xs : List α) (lo hi : Int) : Option (List α) :=
  if 0 ≤ lo ∧ lo ≤ hi ∧ hi ≤ (xs.length : Int) then
    some ((xs.drop lo.toNat).take (hi.toNat - lo.toNat))
  else none

/-! ## Package `strings` (Go standard library) -/

/-- Go `unicode.IsSpace`. -/
def isSpace (c : Char) : Bool :=
  let n := c.toNat
  n == 0x09 || n == 0x0A || n == 0x0B || n == 0x0C || n == 0x0D || n == 0x20 ||
  n == 0x85 || n == 0xA0 || n == 0x1680 || (0x2000 ≤ n && n ≤ 0x200A) ||
  n == 0x2028 || n == 0x2029 || n == 0x202F || n == 0x205F || n == 0x3000

/-- Go `strings.TrimSpace` on the runes of a string:
`TrimRightFunc(TrimLeftFunc(s, unicode.IsSpace), unicode.IsSpace)`. -/
def trimSpaceRunes (s : List Char) : List Char :=
  ((s.dropWhile isSpace).reverse.dropWhile isSpace).reverse

/-- Go `strings.TrimSpace`. -/
def TrimSpace (s : String) : String := String.mk (trimSpaceRunes s.data)

/-- Go `strings.Index(s, substr)`: position of the first occurrence, `none`
for the result `-1`. -/
def Index (s substr : List Char) : Option Nat :=
  if substr.isPrefixOf s then some 0
  else match s with
    | [] => none
    | _ :: t => (Index t substr).map (· + 1)

/-- The loop of Go `strings.Count` for a separator of length at least two:
`for { i := Index(s, substr); if i == -1 { return n }; n++; s = s[i+len(substr):] }`.
The first argument bounds the number of iterations. -/
def countLoop (substr : List Char) : Nat → List Char → Nat
  | 0, _ => 0
  | fuel + 1, s =>
    match Index s substr with
    | none => 0
    | some i => countLoop substr fuel (s.drop (i + substr.length)) + 1

/-- Go `strings.Count(s, substr)`: number of non-overlapping occurrences;
`utf8.RuneCountInString(s) + 1` for the empty `substr`. -/
def Count (s substr : List Char) : Nat :=
  if substr = [] then s.length + 1 else countLoop substr s.length s

/-- The loop of Go `strings.genSplit` with `sepSave = 0`:
`for i < n { m := Index(s, sep); if m < 0 { break }; a[i] = s[:m]; s = s[m+len(sep):]; i++ }; a[i] = s`.
The first argument is `n - i`. -/
def genSplitLoop (sep : List Char) : Nat → List Char → List (List Char)
  | 0, s => [s]
  | k + 1, s =>
    match Index s sep with
    | none => [s]
    | some m => s.take m :: genSplitLoop sep k (s.drop (m + sep.length))

/-- Go `strings.genSplit(s, sep, 0, -1)` on runes; the empty separator
explodes the string into its runes. -/
def genSplit (s sep : List Char) : List (List Char) :=
  if sep = [] then s.map (fun c => [c])
  else
    let n := min (Count s sep + 1) (s.length + 1)
    genSplitLoop sep (n - 1) s

/-- Go `strings.Split(s, sep)`. -/
def Split (s sep : String) : List String :=
  (genSplit s.data sep.data).map String.mk

/-! ## Package `models` -/

/-- Go `time.Time`, as a number of ticks of the store's clock. -/
abbrev Time := Nat

/-- The struct `models.Song`. -/
structure Song where
  ID : Int
  GroupName : String
  SongName : String
  ReleaseDate : String
  Text : String
  Link : String
  CreatedAt : Time
  UpdatedAt : Time
  deriving DecidableEq, Repr

/-- The struct `models.SongFilter`. -/
structure SongFilter where
  GroupName : String
  SongName : String
  ReleaseDate : String
  Page : Int
  PageSize : Int
  deriving DecidableEq, Repr

/-- The struct `models.SongDetail`. -/
structure SongDetail where
  ReleaseDate : String
  Text : String
  Link : String
  deriving DecidableEq, Repr

/-- The struct `models.VersePagination`. -/
structure VersePagination where
  Page : Int
  PageSize : Int
  deriving DecidableEq, Repr

/-- The struct `models.SongWithVerses`, which embeds `Song`. -/
structure SongWithVerses extends Song where
  Verses : List String
  TotalVerses : Int
  CurrentPage : Int
  deriving DecidableEq, Repr

/-! ## The world outside the process -/

/-- Modelled from the spec: the `songs` table, whose schema (the migration
files) is not part of the source tree.  The spec gives the columns `id`
(generated), `group_name`, `song_name`, `release_date`, `text`, `link`,
`created_at`, `updated_at` (both maintained by the server).  `fault` is a
failure of the connection: every statement then returns that error. -/
structure DB where
  songs : List Song
  nextID : Int
  now : Time
  fault : Option GoError
  deriving DecidableEq, Repr

/-- A call that leaves the process. -/
inductive Event where
  | apiGet (group song : String)
  | dbCreate (song : Song)
  | dbUpdate (song : Song)
  | dbDelete (id : Int)
  | dbGetByID (id : Int)
  | dbList (filter : SongFilter)
  deriving DecidableEq, Repr

/-- The store and the record of the external calls made so far, oldest first. -/
structure World where
  db : DB
  trace : List Event
  deriving DecidableEq, Repr

/-- Appends one external call to the record. -/
def World.log (w : World) (e : Event) : World :=
  { w with trace := w.trace ++ [e] }

/-! ## SQL pattern matching (PostgreSQL) -/

/-- The characters with a special meaning in a `LIKE` pattern. -/
def isLikeMeta (c : Char) : Bool := c == '%' || c == '_' || c == '\\'

/-- The locale of the database server: configuration outside the source
tree, taken as a parameter of the queries that fold case.  `lower` is the
character mapping behind SQL `lower`.  Case folding maps letters to letters:
it leaves `%`, `_` and the backslash alone and maps no other character to one
of them. -/
structure Locale where
  lower : Char → Char
  lower_meta : ∀ c, isLikeMeta c = true → lower c = c
  lower_plain : ∀ c, isLikeMeta c = false → isLikeMeta (lower c) = false

/-- The C locale: only the ASCII letters fold. -/
def cLocale : Locale where
  lower := Char.toLower
  lower_meta := by
    intro c hc
    simp only [isLikeMeta, Bool.or_eq_true, beq_iff_eq] at hc
    rcases hc with (h | h) | h <;> subst h <;> decide
  lower_plain := by
    intro c hc
    unfold Char.toLower
    simp only
    split
    · rename_i h
      generalize c.toNat = n at h
      obtain ⟨h1, h2⟩ := h
      interval_cases n <;> decide
    · exact hc

/-- Result of the function `MatchText` of PostgreSQL (`like_match.c`);
`error` is the report "LIKE pattern must not end with escape character". -/
inductive LikeResult where
  | LIKE_TRUE
  | LIKE_FALSE
  | LIKE_ABORT
  | error
  deriving DecidableEq, Repr

/-- The part of `MatchText` after a `%`: further `%` are skipped and every
`_` consumes one character of the text; `none` is `LIKE_ABORT`, returned when
the text is too short.  The result is the rest of the pattern and of the
text. -/
def skipWildcards : List Char → List Char → Option (List Char × List Char)
  | [], t => some ([], t)
  | c :: p, t =>
    if c = '%' then skipWildcards p t
    else if c = '_' then
      (match t with
       | [] => none
       | _ :: t' => skipWildcards p t')
    else some (c :: p, t)

/-- The search of `MatchText` after a `%`: the rest of the pattern is tried
at every position of the text that starts with its first literal character,
until a try does not return `LIKE_FALSE`. -/
def scanText (firstpat : Char) (attempt : List Char → LikeResult) : List Char → LikeResult
  | [] => .LIKE_ABORT
  | c :: t =>
    if c = firstpat then
      (match attempt (c :: t) with
       | .LIKE_FALSE => scanText firstpat attempt t
       | matched => matched)
    else scanText firstpat attempt t

/-- The loop of `MatchText` and what follows it.  The first argument bounds
the number of pattern characters still to be read; `MatchText` passes the
length of the pattern. -/
def matchLoop : Nat → List Char → List Char → LikeResult
  | _, t, [] => if t.isEmpty then .LIKE_TRUE else .LIKE_FALSE
  | _, [], c :: p => if (c :: p).all (fun x => x == '%') then .LIKE_TRUE else .LIKE_ABORT
  | 0, _ :: _, _ :: _ => .LIKE_ABORT
  | fuel + 1, d :: t, c :: p =>
    if c = '\\' then
      (match p with
       | [] => .error
       | e :: p' => if e = d then matchLoop fuel t p' else .LIKE_FALSE)
    else if c = '%' then
      (match skipWildcards p (d :: t) with
       | none => .LIKE_ABORT
       | some ([], _) => .LIKE_TRUE
       | some (f :: q, u) =>
         if f = '\\' then
           (match q with
            | [] => .error
            | e :: _ =>
              scanText e
                (fun v => if f :: q = ['%'] then .LIKE_TRUE else matchLoop fuel v (f :: q)) u)
         else
           scanText f
             (fun v => if f :: q = ['%'] then .LIKE_TRUE else matchLoop fuel v (f :: q)) u)
    else if c = '_' then matchLoop fuel t p
    else if c = d then matchLoop fuel t p
    else .LIKE_FALSE

/-- The function `MatchText` of PostgreSQL, text first: the pattern `%`
matches everything, `%` matches any sequence of characters, `_` any single
character, a backslash makes the next pattern character literal, and a
backslash that ends the pattern is an error once the match reaches it with
text left. -/
def MatchText (t p : List Char) : LikeResult :=
  if p = ['%'] then .LIKE_TRUE else matchLoop p.length t p

/-- The error of a `LIKE` pattern that ends in the escape character. -/
def errLikeEscape : GoError := .driver "pq: LIKE pattern must not end with escape character"

/-- The value of the SQL operator for a result of `MatchText`. -/
def likeValue : LikeResult → Except GoError Bool
  | .LIKE_TRUE => .ok true
  | .LIKE_FALSE => .ok false
  | .LIKE_ABORT => .ok false
  | .error => .error errLikeEscape

/-- SQL `text LIKE pattern`. -/
def sqlLike (text pattern : String) : Except GoError Bool :=
  likeValue (MatchText text.data pattern.data)

/-- SQL `text ILIKE pattern`: PostgreSQL folds the case of both operands
with the `lower` of the locale and then matches as `LIKE`. -/
def sqlILike (locale : Locale) (text pattern : String) : Except GoError Bool :=
  likeValue (MatchText (text.data.map locale.lower) (pattern.data.map locale.lower))

/-- The `WHERE` clause of the query of `SongRepository.List` on one row, with
`$1`, `$2`, `$3` bound to the three filter strings:
`($1 = '' OR group_name ILIKE '%' || $1 || '%') AND
 ($2 = '' OR song_name ILIKE '%' || $2 || '%') AND
 ($3 = '' OR release_date::text LIKE $3)`.
SQL leaves the order of evaluation open; the conjuncts are evaluated in the
order written, up to the first that is false or raises an error. -/
def listWhere (locale : Locale) (filter : SongFilter) (r : Song) : Except GoError Bool :=
  match (if filter.GroupName == "" then .ok true
         else sqlILike locale r.GroupName ("%" ++ filter.GroupName ++ "%")) with
  | .error e => .error e
  | .ok false => .ok false
  | .ok true =>
    match (if filter.SongName == "" then .ok true
           else sqlILike locale r.SongName ("%" ++ filter.SongName ++ "%")) with
    | .error e => .error e
    | .ok false => .ok false
    | .ok true =>
      if filter.ReleaseDate == "" then .ok true
      else sqlLike r.ReleaseDate filter.ReleaseDate

/-- The scan of the table: the rows that pass the `WHERE` clause, or the
first error raised while evaluating it. -/
def selectWhere (locale : Locale) (filter : SongFilter) : List Song → Except GoError (List Song)
  | [] => .ok []
  | r :: rs =>
    match listWhere locale filter r with
    | .error e => .error e
    | .ok keep =>
      match selectWhere locale filter rs with
      | .error e => .error e
      | .ok rest => .ok (if keep then r :: rest else rest)

/-- The string holds the character NUL, which the server refuses in a text
parameter. -/
def hasNUL (s : String) : Bool := s.data.any (fun c => c.toNat == 0)

/-! ## Package `repository` -/

/-- The method `SongRepository.Create`: `INSERT ... RETURNING id, created_at,
updated_at`, scanned into the caller's song. -/
def SongRepository.Create (w : World) (song : Song) : Option GoError × Song × World :=
  let w := w.log (.dbCreate song)
  match w.db.fault with
  | some e => (some e, song, w)
  | none =>
    let row : Song :=
      { song with ID := w.db.nextID, CreatedAt := w.db.now, UpdatedAt := w.db.now }
    (none, row,
      { w with db := { w.db with songs := w.db.songs ++ [row], nextID := w.db.nextID + 1 } })

/-- The method `SongRepository.Update`: `UPDATE ... WHERE id = $6 RETURNING
updated_at`; `QueryRow(...).Scan` gives `sql.ErrNoRows` when no row matched. -/
def SongRepository.Update (w : World) (song : Song) : Option GoError × Song × World :=
  let w := w.log (.dbUpdate song)
  match w.db.fault with
  | some e => (some e, song, w)
  | none =>
    if w.db.songs.any (fun r => r.ID == song.ID) then
      let upd (r : Song) : Song :=
        if r.ID == song.ID then
          { r with GroupName := song.GroupName, SongName := song.SongName,
                   ReleaseDate := song.ReleaseDate, Text := song.Text, Link := song.Link,
                   UpdatedAt := w.db.now }
        else r
      (none, { song with UpdatedAt := w.db.now },
        { w with db := { w.db with songs := w.db.songs.map upd } })
    else (some .ErrNoRows, song, w)

/-- The method `SongRepository.Delete`: `DELETE FROM songs WHERE id = $1`,
then the check of `RowsAffected`. -/
def SongRepository.Delete (w : World) (id : Int) : Option GoError × World :=
  let w := w.log (.dbDelete id)
  match w.db.fault with
  | some e => (some e, w)
  | none =>
    let rowsAffected := (w.db.songs.filter (fun r => r.ID == id)).length
    let w := { w with db := { w.db with songs := w.db.songs.filter (fun r => !(r.ID == id)) } }
    if rowsAffected == 0 then
      (some (.errorf "song with id %d not found" [id]), w)
    else (none, w)

/-- The method `SongRepository.GetByID`: `SELECT ... WHERE id = $1`. -/
def SongRepository.GetByID (w : World) (id : Int) : Except GoError Song × World :=
  let w := w.log (.dbGetByID id)
  match w.db.fault with
  | some e =>
    if e = .ErrNoRows then (.error (.errorf "song with id %d not found" [id]), w)
    else (.error e, w)
  | none =>
    match w.db.songs.find? (fun r => r.ID == id) with
    | none => (.error (.errorf "song with id %d not found" [id]), w)
    | some song => (.ok song, w)

/-- The method `SongRepository.List`: the filtered rows `ORDER BY id
LIMIT $4 OFFSET $5`, with `$4 = filter.PageSize` and `$5 = offset`.  The
server refuses a text parameter that holds NUL when it binds the parameters,
then a negative `OFFSET`, then a negative `LIMIT`, and only then scans the
table. -/
def SongRepository.List (locale : Locale) (w : World) (filter : SongFilter) :
    Except GoError (List Song) × World :=
  let w := w.log (.dbList filter)
  let offset := wrapInt (wrapInt (filter.Page - 1) * filter.PageSize)
  match w.db.fault with
  | some e => (.error e, w)
  | none =>
    if hasNUL filter.GroupName || hasNUL filter.SongName || hasNUL filter.ReleaseDate then
      (.error (.driver "pq: invalid byte sequence for encoding \"UTF8\": 0x00"), w)
    else if offset < 0 then (.error (.driver "pq: OFFSET must not be negative"), w)
    else if filter.PageSize < 0 then (.error (.driver "pq: LIMIT must not be negative"), w)
    else
      match selectWhere locale filter w.db.songs with
      | .error e => (.error e, w)
      | .ok rows =>
        let rows := rows.insertionSort (fun a b => a.ID ≤ b.ID)
        (.ok ((rows.drop offset.toNat).take filter.PageSize.toNat), w)

/-! ## Package `service` -/

/-- What the metadata endpoint does with one GET request: the transport
fails, or a response arrives with a status code and a body that the JSON
decoder accepts or rejects. -/
inductive Exchange where
  | failed (err : GoError)
  | response (StatusCode : Int) (body : Except GoError SongDetail)

/-- The struct `service.MusicAPIClient`; `endpoint` stands for the remote
service behind `baseURL + "/info"`, queried with `group` and `song`. -/
structure MusicAPIClient where
  baseURL : String
  endpoint : String → String → Exchange

/-- The method `MusicAPIClient.GetSongInfo`. -/
def MusicAPIClient.GetSongInfo (c : MusicAPIClient) (w : World) (group song : String) :
    Except GoError SongDetail × World :=
  let w := w.log (.apiGet group song)
  match c.endpoint group song with
  | .failed err => (.error (.wrapf "failed to make request: %w" err), w)
  | .response StatusCode body =>
    if StatusCode ≠ 200 then
      (.error (.errorf "API returned non-200 status code: %d" [StatusCode]), w)
    else
      match body with
      | .error err => (.error (.wrapf "failed to decode response: %w" err), w)
      | .ok songDetail => (.ok songDetail, w)

/-- The struct `service.SongService`; its repository is the store of the
`World` each method receives. -/
structure SongService where
  apiClient : MusicAPIClient

/-- The method `SongService.CreateSong`; the second component is the
caller's song after the call. -/
def SongService.CreateSong (s : SongService) (w : World) (song : Song) : Option GoError × Song × World :=
  match s.apiClient.GetSongInfo w song.GroupName song.SongName with
  | (.error err, w) => (some (.wrapf "failed to get song info: %w" err), song, w)
  | (.ok songDetail, w) =>
    let song := { song with ReleaseDate := songDetail.ReleaseDate,
                            Text := songDetail.Text, Link := songDetail.Link }
    match SongRepository.Create w song with
    | (some err, song, w) => (some (.wrapf "failed to create song: %w" err), song, w)
    | (none, song, w) => (none, song, w)

/-- The method `SongService.UpdateSong`. -/
def SongService.UpdateSong (w : World) (song : Song) : Option GoError × Song × World :=
  match SongRepository.Update w song with
  | (some err, song, w) => (some (.wrapf "failed to update song: %w" err), song, w)
  | (none, song, w) => (none, song, w)

/-- The method `SongService.DeleteSong`. -/
def SongService.DeleteSong (w : World) (id : Int) : Option GoError × World :=
  match SongRepository.Delete w id with
  | (some err, w) => (some (.wrapf "failed to delete song: %w" err), w)
  | (none, w) => (none, w)

/-- The method `SongService.GetSong`. -/
def SongService.GetSong (w : World) (id : Int) : Except GoError Song × World :=
  match SongRepository.GetByID w id with
  | (.error err, w) => (.error (.wrapf "failed to get song: %w" err), w)
  | (.ok song, w) => (.ok song, w)

/-- The error of `GetSongWithVerses` for a page past the last verse. -/
def errPageExceeds : GoError := .errorf "page number exceeds total verses" []

/-- The method `SongService.GetSongWithVerses`. -/
def SongService.GetSongWithVerses (w : World) (id : Int) (pagination : VersePagination) :
    Outcome SongWithVerses × World :=
  match SongRepository.GetByID w id with
  | (.error err, w) => (.error (.wrapf "failed to get song: %w" err), w)
  | (.ok song, w) =>
    let verses := Split (TrimSpace song.Text) "\n\n"
    let totalVerses : Int := verses.length
    let startIdx := wrapInt (wrapInt (pagination.Page - 1) * pagination.PageSize)
    let endIdx := wrapInt (startIdx + pagination.PageSize)
    let endIdx := if endIdx > totalVerses then totalVerses else endIdx
    if startIdx ≥ totalVerses then (.error errPageExceeds, w)
    else
      match sliceExpr verses startIdx endIdx with
      | none => (.panic, w)
      | some page =>
        (.ok { toSong := song, Verses := page, TotalVerses := totalVerses,
               CurrentPage := pagination.Page }, w)

/-- The method `SongService.ListSongs`. -/
def SongService.ListSongs (locale : Locale) (w : World) (filter : SongFilter) :
    Except GoError (List Song) × World :=
  match SongRepository.List locale w filter with
  | (.error err, w) => (.error (.wrapf "failed to list songs: %w" err), w)
  | (.ok songs, w) => (.ok songs, w)

/-! ## Package `api` -/

/-- What a handler writes as response body. -/
inductive Body where
  /-- The struct `ErrorResponse` with a fixed message. -/
  | ErrorResponse (Error : String)
  /-- The struct `ErrorResponse` with the message `err.Error()`. -/
  | ErrorOf (err : GoError)
  | song (song : Song)
  | songs (songs : List Song)
  | songWithVerses (song : SongWithVerses)
  | empty
  deriving DecidableEq, Repr

/-- Status code and body written to the client. -/
structure Response where
  status : Nat
  body : Body
  deriving DecidableEq, Repr

/-- Go `http.StatusOK`. -/
def StatusOK : Nat := 200
/-- Go `http.StatusCreated`. -/
def StatusCreated : Nat := 201
/-- Go `http.StatusNoContent`. -/
def StatusNoContent : Nat := 204
/-- Go `http.StatusBadRequest`. -/
def StatusBadRequest : Nat := 400
/-- Go `http.StatusNotFound`. -/
def StatusNotFound : Nat := 404
/-- Go `http.StatusInternalServerError`. -/
def StatusInternalServerError : Nat := 500

/-- The method `Handler.CreateSong`; `body` is the result of
`c.ShouldBindJSON(&song)`, `none` when the binding fails. -/
def Handler.CreateSong (s : SongService) (w : World) (body : Option Song) : Response × World :=
  match body with
  | none => (⟨StatusBadRequest, .ErrorResponse "Invalid request body"⟩, w)
  | some song =>
    match s.CreateSong w song with
    | (some err, _, w) => (⟨StatusInternalServerError, .ErrorOf err⟩, w)
    | (none, song, w) => (⟨StatusCreated, .song song⟩, w)

/-- The method `Handler.UpdateSong`; `idParam` is the result of
`strconv.Atoi(c.Param("id"))`, `none` when the conversion fails. -/
def Handler.UpdateSong (w : World) (idParam : Option Int) (body : Option Song) :
    Response × World :=
  match idParam with
  | none => (⟨StatusBadRequest, .ErrorResponse "Invalid song ID"⟩, w)
  | some id =>
    match body with
    | none => (⟨StatusBadRequest, .ErrorResponse "Invalid request body"⟩, w)
    | some song =>
      let song := { song with ID := id }
      match SongService.UpdateSong w song with
      | (some err, _, w) => (⟨StatusInternalServerError, .ErrorOf err⟩, w)
      | (none, song, w) => (⟨StatusOK, .song song⟩, w)

/-- The method `Handler.DeleteSong`. -/
def Handler.DeleteSong (w : World) (idParam : Option Int) : Response × World :=
  match idParam with
  | none => (⟨StatusBadRequest, .ErrorResponse "Invalid song ID"⟩, w)
  | some id =>
    match SongService.DeleteSong w id with
    | (some err, w) => (⟨StatusInternalServerError, .ErrorOf err⟩, w)
    | (none, w) => (⟨StatusNoContent, .empty⟩, w)

/-- The method `Handler.GetSong`. -/
def Handler.GetSong (w : World) (idParam : Option Int) : Response × World :=
  match idParam with
  | none => (⟨StatusBadRequest, .ErrorResponse "Invalid song ID"⟩, w)
  | some id =>
    match SongService.GetSong w id with
    | (.error err, w) => (⟨StatusNotFound, .ErrorOf err⟩, w)
    | (.ok song, w) => (⟨StatusOK, .song song⟩, w)

/-- The method `Handler.GetSongVerses`; `query` is the result of
`c.ShouldBindQuery(&pagination)`.  A panic of the service is answered by the
recovery middleware of `gin.Default()` with status 500. -/
def Handler.GetSongVerses (w : World) (idParam : Option Int) (query : Option VersePagination) :
    Response × World :=
  match idParam with
  | none => (⟨StatusBadRequest, .ErrorResponse "Invalid song ID"⟩, w)
  | some id =>
    match query with
    | none => (⟨StatusBadRequest, .ErrorResponse "Invalid query parameters"⟩, w)
    | some pagination =>
      match SongService.GetSongWithVerses w id pagination with
      | (.error err, w) => (⟨StatusNotFound, .ErrorOf err⟩, w)
      | (.panic, w) => (⟨StatusInternalServerError, .empty⟩, w)
      | (.ok song, w) => (⟨StatusOK, .songWithVerses song⟩, w)

/-- The method `Handler.ListSongs`. -/
def Handler.ListSongs (locale : Locale) (w : World) (query : Option SongFilter) :
    Response × World :=
  match query with
  | none => (⟨StatusBadRequest, .ErrorResponse "Invalid query parameters"⟩, w)
  | some filter =>
    match SongService.ListSongs locale w filter with
    | (.error err, w) => (⟨StatusInternalServerError, .ErrorOf err⟩, w)
    | (.ok songs, w) => (⟨StatusOK, .songs songs⟩, w)

/-! ## Vocabulary of the specification -/

/-- The song is stored under `id`: the store answers, and the row with that
ID is `song`. -/
def Stored (w : World) (id : Int) (song : Song) : Prop :=
  w.db.fault = none ∧ w.db.songs.find? (fun r => r.ID == id) = some song

instance (w : World) (id : Int) (song : Song) : Decidable (Stored w id song) := by
  unfold Stored; infer_instance

/-- The verse list `GetSongWithVerses` computes for a song. -/
def versesOf (song : Song) : List String := Split (TrimSpace song.Text) "\n\n"

/-- The pieces with the separator between neighbours. -/
def joinRunes (sep : List Char) : List (List Char) → List Char
  | [] => []
  | [p] => p
  | p :: q :: ps => p ++ sep ++ joinRunes sep (q :: ps)

/-- Go `strings.Join(elems, sep)`; the program does not call it, the
specification of the verse split is stated with it. -/
def Join (elems : List String) (sep : String) : String :=
  String.mk (joinRunes sep.data (elems.map String.data))

/-- The separator of verses, `"\n\n"`, as runes. -/
def verseSep : List Char := ['\n', '\n']

/-- The first string contains the second as a substring when both are
folded with the `lower` of the locale. -/
def containsFold (locale : Locale) (s substr : String) : Prop :=
  substr.data.map locale.lower <:+: s.data.map locale.lower

instance (locale : Locale) (s substr : String) : Decidable (containsFold locale s substr) := by
  unfold containsFold; infer_instance

/-- Reading the pattern from the left, every backslash taking the character
after it, the last character is a backslash that takes nothing: the pattern
ends in the escape character. -/
def endsInEscape : List Char → Bool
  | [] => false
  | [c] => c == '\\'
  | c :: d :: p => if c = '\\' then endsInEscape p else endsInEscape (d :: p)

/-! # Theorems -/

/-! ## Auxiliary facts: integers and strings -/

/-- The offset `(page-1)*pageSize` as the program computes it, when it is
representable. -/
theorem offset_no_wrap {page pageSize : Nat}
    (hpage : 1 ≤ page) (hpageInt : (page : Int) ≤ maxInt)
    (hprod : (((page - 1) * pageSize : Nat) : Int) ≤ maxInt) :
    wrapInt (wrapInt ((page : Int) - 1) * (pageSize : Int))
      = (((page - 1) * pageSize : Nat) : Int) := by
  unfold maxInt at hpageInt hprod
  have h1 : wrapInt ((page : Int) - 1) = ((page - 1 : Nat) : Int) := by
    unfold wrapInt; omega
  have hcast : ((page - 1 : Nat) : Int) * (pageSize : Int)
      = (((page - 1) * pageSize : Nat) : Int) := by
    push_cast; rfl
  rw [h1, hcast]
  unfold wrapInt
  omega

theorem Index_cons (c : Char) (t sep : List Char) :
    Index (c :: t) sep =
      if sep.isPrefixOf (c :: t) then some 0 else (Index t sep).map (· + 1) := by
  rw [Index]

theorem Index_some_le {sep : List Char} :
    ∀ {s : List Char} {m : Nat}, Index s sep = some m → m + sep.length ≤ s.length := by
  intro s
  induction s with
  | nil =>
    intro m h
    rw [Index] at h
    split at h
    · rename_i hp
      have := (List.isPrefixOf_iff_prefix.mp hp).length_le
      simp at h; subst h; simpa using this
    · simp at h
  | cons c t ih =>
    intro m h
    rw [Index_cons] at h
    split at h
    · rename_i hp
      have := (List.isPrefixOf_iff_prefix.mp hp).length_le
      simp at h; subst h; simpa using this
    · cases hi : Index t sep with
      | none => simp [hi] at h
      | some j =>
        simp [hi] at h
        have := ih hi
        subst h
        simp
        omega

theorem genSplitLoop_length_le {sep : List Char} (hsep : 2 ≤ sep.length) :
    ∀ (k : Nat) (s : List Char), 2 * (genSplitLoop sep k s).length ≤ s.length + 2 := by
  intro k
  induction k with
  | zero => intro s; simp [genSplitLoop]
  | succ k ih =>
    intro s
    rw [genSplitLoop]
    cases hi : Index s sep with
    | none => simp
    | some m =>
      have hm := Index_some_le hi
      have := ih (s.drop (m + sep.length))
      simp only [List.length_cons, List.length_drop] at this ⊢
      omega

/-- The iteration bound of `countLoop` is never reached: any two bounds of
at least the length of the text give the same count.  `Count` passes the
length itself. -/
theorem countLoop_fuel {sep : List Char} (hsep : sep ≠ []) :
    ∀ (f1 f2 : Nat) (s : List Char), s.length ≤ f1 → s.length ≤ f2 →
      countLoop sep f1 s = countLoop sep f2 s := by
  have hpos : 1 ≤ sep.length := by
    cases sep with
    | nil => exact absurd rfl hsep
    | cons c t => simp
  have hnil : Index [] sep = none := by
    cases sep with
    | nil => exact absurd rfl hsep
    | cons c t => rfl
  have hzero : ∀ f, countLoop sep f [] = 0 := by
    intro f
    cases f with
    | zero => rfl
    | succ f => rw [countLoop, hnil]
  intro f1
  induction f1 with
  | zero =>
    intro f2 s h1 _
    have hs : s = [] := List.length_eq_zero.mp (Nat.le_zero.mp h1)
    rw [hs, hzero, hzero]
  | succ f1 ih =>
    intro f2 s h1 h2
    cases f2 with
    | zero =>
      have hs : s = [] := List.length_eq_zero.mp (Nat.le_zero.mp h2)
      rw [hs, hzero, hzero]
    | succ f2 =>
      rw [countLoop, countLoop]
      cases hi : Index s sep with
      | none => rfl
      | some i =>
        have hle := Index_some_le hi
        have hlen : (s.drop (i + sep.length)).length = s.length - (i + sep.length) :=
          List.length_drop _ _
        simp only
        rw [ih f2 (s.drop (i + sep.length)) (by omega) (by omega)]

theorem Split_length_le (s : String) : 2 * (Split s "\n\n").length ≤ s.length + 2 := by
  unfold Split genSplit
  have h2 : 2 ≤ ("\n\n" : String).data.length := by decide
  have hne : ("\n\n" : String).data ≠ [] := by decide
  rw [if_neg hne]
  simp only [List.length_map]
  exact genSplitLoop_length_le h2 _ _

theorem trimSpaceRunes_length_le (s : List Char) : (trimSpaceRunes s).length ≤ s.length := by
  unfold trimSpaceRunes
  rw [List.length_reverse]
  calc ((s.dropWhile isSpace).reverse.dropWhile isSpace).length
      ≤ (s.dropWhile isSpace).reverse.length := (List.dropWhile_sublist _).length_le
    _ = (s.dropWhile isSpace).length := List.length_reverse _
    _ ≤ s.length := (List.dropWhile_sublist _).length_le

theorem TrimSpace_length_le (s : String) : (TrimSpace s).length ≤ s.length :=
  trimSpaceRunes_length_le s.data


theorem versesOf_length_le (song : Song) :
    2 * (versesOf song).length ≤ song.Text.length + 2 := by
  have h1 := Split_length_le (TrimSpace song.Text)
  have h2 := TrimSpace_length_le song.Text
  unfold versesOf
  omega

/-! ## Auxiliary facts: the store -/

theorem GetByID_stored {w : World} {id : Int} {song : Song} (h : Stored w id song) :
    SongRepository.GetByID w id = (.ok song, w.log (.dbGetByID id)) := by
  obtain ⟨hf, hs⟩ := h
  have hf2 : (w.log (.dbGetByID id)).db.fault = none := hf
  have hs2 : (w.log (.dbGetByID id)).db.songs.find? (fun r => r.ID == id) = some song := hs
  simp only [SongRepository.GetByID, hf2, hs2]

/-- What `GetSongWithVerses` does once the song is found, with the values the
source names `totalVerses`, `startIdx` and `endIdx`. -/
theorem GetSongWithVerses_stored {w : World} {id : Int} {song : Song}
    (h : Stored w id song) (pagination : VersePagination) :
    (SongService.GetSongWithVerses w id pagination).1 =
      (let totalVerses : Int := (versesOf song).length
       let startIdx := wrapInt (wrapInt (pagination.Page - 1) * pagination.PageSize)
       let endIdx := wrapInt (startIdx + pagination.PageSize)
       let endIdx := if endIdx > totalVerses then totalVerses else endIdx
       if startIdx ≥ totalVerses then .error errPageExceeds
       else
         match sliceExpr (versesOf song) startIdx endIdx with
         | none => .panic
         | some page =>
           .ok { toSong := song, Verses := page, TotalVerses := totalVerses,
                 CurrentPage := pagination.Page }) := by
  simp only [SongService.GetSongWithVerses, GetByID_stored h, versesOf]
  split
  · rfl
  · split <;> rfl

/-! ## Auxiliary facts: splitting a joined text -/

theorem Index_none_of_not_infix {sep : List Char} :
    ∀ {s : List Char}, ¬ sep <:+: s → Index s sep = none := by
  intro s
  induction s with
  | nil =>
    intro h
    rw [Index]
    split
    · rename_i hp
      exact absurd (List.isPrefixOf_iff_prefix.mp hp).isInfix h
    · rfl
  | cons c t ih =>
    intro h
    rw [Index_cons]
    split
    · rename_i hp
      exact absurd (List.isPrefixOf_iff_prefix.mp hp).isInfix h
    · have ht : ¬ sep <:+: t := fun hi => h (hi.trans (List.suffix_cons c t).isInfix)
      rw [ih ht]; rfl

/-- The first blank line of `p ++ "\n\n" ++ rest` is the one after `p`, when
`p` holds no blank line and does not end in a newline. -/
theorem Index_append_verseSep :
    ∀ (p rest : List Char), ¬ verseSep <:+: p → p.getLast? ≠ some '\n' →
      Index (p ++ verseSep ++ rest) verseSep = some p.length := by
  intro p
  induction p with
  | nil =>
    intro rest _ _
    unfold Index
    simp [verseSep]
  | cons c t ih =>
    intro rest hsep hlast
    have ht : ¬ verseSep <:+: t := fun hi => hsep (hi.trans (List.suffix_cons c t).isInfix)
    have hnp : verseSep.isPrefixOf (c :: t ++ verseSep ++ rest) = false := by
      cases t with
      | nil =>
        have hc : ¬ '\n' = c := by
          intro h; apply hlast; simp [← h]
        simp [verseSep, List.isPrefixOf, hc]
      | cons d t' =>
        by_cases hc : c = '\n'
        · have hd : ¬ '\n' = d := by
            intro h; apply hsep
            subst hc; subst h
            exact (List.prefix_append verseSep t').isInfix
          simp [verseSep, List.isPrefixOf, hd]
        · have hc' : ¬ '\n' = c := fun h => hc h.symm
          simp [verseSep, List.isPrefixOf, hc']
    have htl : t.getLast? ≠ some '\n' := by
      cases t with
      | nil => simp
      | cons d t' => simpa [List.getLast?_cons_cons] using hlast
    have hrec := ih rest ht htl
    rw [List.cons_append, List.cons_append, Index_cons]
    rw [List.cons_append, List.cons_append] at hnp
    rw [hnp, hrec]
    simp


theorem joinRunes_cons_cons (sep p q : List Char) (ps : List (List Char)) :
    joinRunes sep (p :: q :: ps) = p ++ sep ++ joinRunes sep (q :: ps) := rfl

theorem joinRunes_length_ge :
    ∀ (ps : List (List Char)), ps.length ≤ (joinRunes verseSep ps).length + 1 := by
  intro ps
  induction ps with
  | nil => simp
  | cons p qs ih =>
    cases qs with
    | nil => simp
    | cons q rest =>
      rw [joinRunes_cons_cons]
      simp only [List.length_cons, List.length_append, verseSep] at ih ⊢
      omega

/-- Both loops of `strings.Split` on pieces joined by blank lines: the split
loop returns the pieces and the count loop their number less one. -/
theorem loops_joinRunes :
    ∀ (ps : List (List Char)), ps ≠ [] →
      (∀ p ∈ ps, ¬ verseSep <:+: p) →
      (∀ p ∈ ps.dropLast, p.getLast? ≠ some '\n') →
      ∀ k, ps.length ≤ k + 1 →
        genSplitLoop verseSep k (joinRunes verseSep ps) = ps ∧
        countLoop verseSep k (joinRunes verseSep ps) = ps.length - 1 := by
  intro ps
  induction ps with
  | nil => intro h; exact absurd rfl h
  | cons p qs ih =>
    intro _ hsep hnl k hk
    cases qs with
    | nil =>
      have hp : Index p verseSep = none :=
        Index_none_of_not_infix (hsep p (by simp))
      cases k with
      | zero => simp [joinRunes, genSplitLoop, countLoop]
      | succ k => simp [joinRunes, genSplitLoop, countLoop, hp]
    | cons q rest =>
      cases k with
      | zero => simp at hk
      | succ k =>
        have hidx := Index_append_verseSep p (joinRunes verseSep (q :: rest))
          (hsep p (by simp)) (hnl p (by simp [List.dropLast]))
        have hrec := ih (by simp) (fun x hx => hsep x (List.mem_cons_of_mem _ hx))
          (fun x hx => hnl x (by
            rw [List.dropLast_cons_of_ne_nil (by simp)]
            exact List.mem_cons_of_mem _ hx))
          k (by simpa using hk)
        have htake : List.take p.length (p ++ verseSep ++ joinRunes verseSep (q :: rest)) = p := by
          rw [List.append_assoc, List.take_left']
          rfl
        have hdrop : List.drop (p.length + verseSep.length)
            (p ++ verseSep ++ joinRunes verseSep (q :: rest)) = joinRunes verseSep (q :: rest) := by
          have : p.length + verseSep.length = (p ++ verseSep).length := by simp
          rw [this, List.drop_left']
          rfl
        rw [joinRunes_cons_cons, genSplitLoop, countLoop, hidx]
        simp only [htake, hdrop, hrec.1, hrec.2]
        simp

theorem genSplit_joinRunes (ps : List (List Char)) (hne : ps ≠ [])
    (hsep : ∀ p ∈ ps, ¬ verseSep <:+: p)
    (hnl : ∀ p ∈ ps.dropLast, p.getLast? ≠ some '\n') :
    genSplit (joinRunes verseSep ps) verseSep = ps := by
  have hlen := joinRunes_length_ge ps
  have hpos : 1 ≤ ps.length := by
    cases ps with
    | nil => exact absurd rfl hne
    | cons p qs => simp
  have hcount := (loops_joinRunes ps hne hsep hnl (joinRunes verseSep ps).length hlen).2
  have hv : verseSep ≠ [] := by decide
  unfold genSplit Count
  rw [if_neg hv, if_neg hv, hcount]
  have hn : min (ps.length - 1 + 1) ((joinRunes verseSep ps).length + 1) - 1 = ps.length - 1 := by
    omega
  simp only [hn]
  exact (loops_joinRunes ps hne hsep hnl (ps.length - 1) (by omega)).1

theorem dropWhile_eq_self_of_head {p : Char → Bool} :
    ∀ (s : List Char), (∀ c, s.head? = some c → p c = false) → s.dropWhile p = s := by
  intro s h
  cases s with
  | nil => rfl
  | cons c t =>
    have := h c rfl
    simp [List.dropWhile, this]

theorem trimSpaceRunes_eq_self (s : List Char)
    (hhead : ∀ c, s.head? = some c → isSpace c = false)
    (hlast : ∀ c, s.getLast? = some c → isSpace c = false) :
    trimSpaceRunes s = s := by
  unfold trimSpaceRunes
  rw [dropWhile_eq_self_of_head s hhead,
    dropWhile_eq_self_of_head s.reverse (by simpa [List.head?_reverse] using hlast),
    List.reverse_reverse]

theorem joinRunes_head_eq (ps : List (List Char)) (hne : ps ≠ [])
    (h : 2 ≤ ps.length → ps.head hne ≠ []) :
    (joinRunes verseSep ps).head? = (ps.head hne).head? := by
  cases ps with
  | nil => exact absurd rfl hne
  | cons p qs =>
    cases qs with
    | nil => rfl
    | cons q rest =>
      have hp : p ≠ [] := h (by simp)
      rw [joinRunes_cons_cons, List.append_assoc]
      cases p with
      | nil => exact absurd rfl hp
      | cons c t => rfl

theorem joinRunes_getLast_eq :
    ∀ (ps : List (List Char)) (hne : ps ≠ []), (2 ≤ ps.length → ps.getLast hne ≠ []) →
    (joinRunes verseSep ps).getLast? = (ps.getLast hne).getLast? := by
  intro ps
  induction ps with
  | nil => intro h; exact absurd rfl h
  | cons p qs ih =>
    intro hne h
    cases qs with
    | nil => rfl
    | cons q rest =>
      have hl : (p :: q :: rest).getLast hne = (q :: rest).getLast (by simp) := by
        simp [List.getLast_cons]
      have hlast : (q :: rest).getLast (by simp) ≠ [] := by
        rw [← hl]; exact h (by simp)
      have hrec := ih (by simp) (fun _ => hlast)
      have hJ : joinRunes verseSep (q :: rest) ≠ [] := by
        intro hJ
        rw [hJ] at hrec
        cases hx : (q :: rest).getLast (by simp) with
        | nil => exact hlast hx
        | cons c t => rw [hx] at hrec; simp [List.getLast?_cons] at hrec
      rw [joinRunes_cons_cons, hl, ← hrec]
      exact List.getLast?_append_of_ne_nil _ hJ


/-! ## Auxiliary facts: `LIKE` patterns -/

theorem isLikeMeta_false_iff (c : Char) :
    isLikeMeta c = false ↔ c ≠ '%' ∧ c ≠ '_' ∧ c ≠ '\\' := by
  simp only [isLikeMeta, Bool.or_eq_false_iff, beq_eq_false_iff_ne, ne_eq, and_assoc]

theorem matchLoop_nil_pattern (fuel : Nat) (t : List Char) :
    matchLoop fuel t [] = if t.isEmpty then .LIKE_TRUE else .LIKE_FALSE := by
  cases fuel <;> cases t <;> rfl

theorem matchLoop_nil_text (fuel : Nat) (c : Char) (p : List Char) :
    matchLoop fuel [] (c :: p)
      = if (c :: p).all (fun x => x == '%') then .LIKE_TRUE else .LIKE_ABORT := by
  cases fuel <;> rfl

theorem matchLoop_succ (fuel : Nat) (d : Char) (t : List Char) (c : Char) (p : List Char) :
    matchLoop (fuel + 1) (d :: t) (c :: p) =
      if c = '\\' then
        (match p with
         | [] => .error
         | e :: p' => if e = d then matchLoop fuel t p' else .LIKE_FALSE)
      else if c = '%' then
        (match skipWildcards p (d :: t) with
         | none => .LIKE_ABORT
         | some ([], _) => .LIKE_TRUE
         | some (f :: q, u) =>
           if f = '\\' then
             (match q with
              | [] => .error
              | e :: _ =>
                scanText e
                  (fun v => if f :: q = ['%'] then .LIKE_TRUE else matchLoop fuel v (f :: q)) u)
           else
             scanText f
               (fun v => if f :: q = ['%'] then .LIKE_TRUE else matchLoop fuel v (f :: q)) u)
      else if c = '_' then matchLoop fuel t p
      else if c = d then matchLoop fuel t p
      else .LIKE_FALSE := rfl

theorem matchLoop_plain_cons (fuel : Nat) (d : Char) (t : List Char) (c : Char) (p : List Char)
    (hc : isLikeMeta c = false) :
    matchLoop (fuel + 1) (d :: t) (c :: p) = if c = d then matchLoop fuel t p else .LIKE_FALSE := by
  obtain ⟨h1, h2, h3⟩ := (isLikeMeta_false_iff c).mp hc
  rw [matchLoop_succ, if_neg h3, if_neg h1, if_neg h2]

theorem skipWildcards_cons (c : Char) (p t : List Char) :
    skipWildcards (c :: p) t =
      if c = '%' then skipWildcards p t
      else if c = '_' then
        (match t with
         | [] => none
         | _ :: t' => skipWildcards p t')
      else some (c :: p, t) := rfl

theorem skipWildcards_plain (f : Char) (q t : List Char) (hf : isLikeMeta f = false) :
    skipWildcards (f :: q) t = some (f :: q, t) := by
  obtain ⟨h1, h2, _⟩ := (isLikeMeta_false_iff f).mp hf
  rw [skipWildcards_cons, if_neg h1, if_neg h2]

/-- A pattern of plain characters followed by `%`, tried at the start of a
text: it matches when the text starts with these characters, and it aborts
only when the text is shorter than they are. -/
theorem matchLoop_plain_then_percent :
    ∀ (g : List Char), (∀ c ∈ g, isLikeMeta c = false) →
      ∀ (fuel : Nat) (v : List Char), g.length + 1 ≤ fuel →
        (matchLoop fuel v (g ++ ['%']) = .LIKE_TRUE ↔ g <+: v) ∧
        (matchLoop fuel v (g ++ ['%']) = .LIKE_ABORT → v.length < g.length) ∧
        matchLoop fuel v (g ++ ['%']) ≠ .error := by
  intro g
  induction g with
  | nil =>
    intro _ fuel v hfuel
    cases v with
    | nil =>
      rw [List.nil_append, matchLoop_nil_text]
      simp
    | cons d t =>
      cases fuel with
      | zero => simp at hfuel
      | succ fuel =>
        have h : matchLoop (fuel + 1) (d :: t) ([] ++ ['%']) = .LIKE_TRUE := by
          rw [List.nil_append, matchLoop_succ]
          simp [skipWildcards]
        rw [h]
        simp
  | cons c q ih =>
    intro hg fuel v hfuel
    have hc : isLikeMeta c = false := hg c (by simp)
    have hq : ∀ x ∈ q, isLikeMeta x = false := fun x hx => hg x (List.mem_cons_of_mem _ hx)
    obtain ⟨h1, _, _⟩ := (isLikeMeta_false_iff c).mp hc
    cases v with
    | nil =>
      have h : matchLoop fuel [] (c :: q ++ ['%']) = .LIKE_ABORT := by
        rw [List.cons_append, matchLoop_nil_text]
        simp [h1]
      rw [h]
      simp
    | cons d t =>
      cases fuel with
      | zero => simp at hfuel
      | succ fuel =>
        rw [List.cons_append, matchLoop_plain_cons fuel d t c _ hc]
        by_cases hcd : c = d
        · obtain ⟨i1, i2, i3⟩ := ih hq fuel t (by simpa using hfuel)
          subst hcd
          rw [if_pos rfl]
          refine ⟨?_, ?_, i3⟩
          · rw [i1, List.cons_prefix_cons]; simp
          · intro h; have := i2 h; simp only [List.length_cons]; omega
        · rw [if_neg hcd]
          refine ⟨?_, ?_, ?_⟩
          · constructor
            · intro h; cases h
            · intro h; rw [List.cons_prefix_cons] at h; exact absurd h.1 hcd
          · intro h; cases h
          · intro h; cases h

/-- The search after `%` for a pattern that starts with the literal `f`: it
finds a match exactly when the pattern matches at some position. -/
theorem scanText_plain (f : Char) (g : List Char) (attempt : List Char → LikeResult)
    (htrue : ∀ v, attempt v = .LIKE_TRUE ↔ (f :: g) <+: v)
    (habort : ∀ v, attempt v = .LIKE_ABORT → v.length < (f :: g).length)
    (herr : ∀ v, attempt v ≠ .error) :
    ∀ (t : List Char),
      (scanText f attempt t = .LIKE_TRUE ↔ (f :: g) <:+: t) ∧ scanText f attempt t ≠ .error := by
  intro t
  induction t with
  | nil =>
    rw [scanText]
    refine ⟨⟨fun h => (by cases h), fun h => ?_⟩, fun h => (by cases h)⟩
    have := h.length_le
    simp at this
  | cons c t ih =>
    rw [scanText]
    by_cases hcf : c = f
    · rw [if_pos hcf]
      cases hres : attempt (c :: t) with
      | LIKE_TRUE =>
        refine ⟨⟨fun _ => ((htrue _).mp hres).isInfix, fun _ => rfl⟩, fun h => (by cases h)⟩
      | LIKE_FALSE =>
        show (scanText f attempt t = .LIKE_TRUE ↔ (f :: g) <:+: c :: t) ∧ scanText f attempt t ≠ .error
        refine ⟨?_, ih.2⟩
        rw [ih.1, List.infix_cons_iff]
        constructor
        · intro h; exact Or.inr h
        · rintro (h | h)
          · have := (htrue _).mpr h
            rw [hres] at this
            cases this
          · exact h
      | LIKE_ABORT =>
        refine ⟨⟨fun h => (by cases h), fun h => ?_⟩, fun h => (by cases h)⟩
        have h1 := habort _ hres
        have h2 := h.length_le
        omega
      | error => exact absurd hres (herr _)
    · rw [if_neg hcf]
      refine ⟨?_, ih.2⟩
      rw [ih.1, List.infix_cons_iff]
      constructor
      · intro h; exact Or.inr h
      · rintro (h | h)
        · rw [List.cons_prefix_cons] at h
          exact absurd h.1.symm hcf
        · exact h

/-- The pattern `%g%` with plain `g` matches the texts that contain `g`, and
raises no error. -/
theorem MatchText_percent_plain_percent (g t : List Char)
    (hg : ∀ c ∈ g, isLikeMeta c = false) :
    (MatchText t ('%' :: (g ++ ['%'])) = .LIKE_TRUE ↔ g <:+: t) ∧
    MatchText t ('%' :: (g ++ ['%'])) ≠ .error := by
  have hne : ('%' :: (g ++ ['%'])) ≠ ['%'] := by
    intro h
    have := congrArg List.length h
    simp at this
  unfold MatchText
  rw [if_neg hne]
  cases t with
  | nil =>
    rw [matchLoop_nil_text]
    cases g with
    | nil => simp
    | cons f q =>
      obtain ⟨h1, _, _⟩ := (isLikeMeta_false_iff f).mp (hg f (by simp))
      have hall : (('%' :: (f :: q ++ ['%'])).all (fun x => x == '%')) = false := by
        simp [h1]
      rw [hall]
      refine ⟨⟨fun h => (by cases h), fun h => ?_⟩, fun h => (by cases h)⟩
      have := h.length_le
      simp at this
  | cons d t =>
    have hlen : ('%' :: (g ++ ['%'])).length = (g.length + 1) + 1 := by simp
    rw [hlen, matchLoop_succ, if_neg (by decide), if_pos rfl]
    cases g with
    | nil =>
      simp [skipWildcards]
    | cons f q =>
      have hf : isLikeMeta f = false := hg f (by simp)
      obtain ⟨h1, _, h3⟩ := (isLikeMeta_false_iff f).mp hf
      rw [List.cons_append, skipWildcards_plain f _ _ hf]
      simp only [if_neg h3]
      have hnp : ¬ (f :: (q ++ ['%']) = ['%']) := by
        intro h; exact h1 (List.cons.inj h).1
      simp only [if_neg hnp]
      have hp := matchLoop_plain_then_percent (f :: q) hg
      exact scanText_plain f q _
        (fun v => (hp _ v (Nat.le_refl _)).1)
        (fun v => (hp _ v (Nat.le_refl _)).2.1)
        (fun v => (hp _ v (Nat.le_refl _)).2.2) (d :: t)


theorem endsInEscape_cons_of_ne (c : Char) (p : List Char) (hc : c ≠ '\\') :
    endsInEscape (c :: p) = endsInEscape p := by
  cases p with
  | nil => simp [endsInEscape, hc]
  | cons d p' => rw [endsInEscape, if_neg hc]

theorem endsInEscape_escaped (e : Char) (p : List Char) :
    endsInEscape ('\\' :: e :: p) = endsInEscape p := by
  rw [endsInEscape, if_pos rfl]

theorem skipWildcards_endsInEscape :
    ∀ (p t p' t' : List Char), skipWildcards p t = some (p', t') →
      endsInEscape p' = endsInEscape p := by
  intro p
  induction p with
  | nil =>
    intro t p' t' h
    simp only [skipWildcards, Option.some.injEq, Prod.mk.injEq] at h
    rw [← h.1]
  | cons c p ih =>
    intro t p' t' h
    rw [skipWildcards_cons] at h
    by_cases h1 : c = '%'
    · rw [if_pos h1] at h
      rw [ih t p' t' h, endsInEscape_cons_of_ne c p (by rw [h1]; decide)]
    · rw [if_neg h1] at h
      by_cases h2 : c = '_'
      · rw [if_pos h2] at h
        cases t with
        | nil => cases h
        | cons d t'' =>
          rw [ih t'' p' t' h, endsInEscape_cons_of_ne c p (by rw [h2]; decide)]
      · rw [if_neg h2] at h
        simp only [Option.some.injEq, Prod.mk.injEq] at h
        rw [← h.1]

theorem skipWildcards_length :
    ∀ (p t p' t' : List Char), skipWildcards p t = some (p', t') → p'.length ≤ p.length := by
  intro p
  induction p with
  | nil =>
    intro t p' t' h
    simp only [skipWildcards, Option.some.injEq, Prod.mk.injEq] at h
    rw [← h.1]
  | cons c p ih =>
    intro t p' t' h
    rw [skipWildcards_cons] at h
    by_cases h1 : c = '%'
    · rw [if_pos h1] at h
      have := ih t p' t' h
      simp only [List.length_cons]; omega
    · rw [if_neg h1] at h
      by_cases h2 : c = '_'
      · rw [if_pos h2] at h
        cases t with
        | nil => cases h
        | cons d t'' =>
          have := ih t'' p' t' h
          simp only [List.length_cons]; omega
      · rw [if_neg h2] at h
        simp only [Option.some.injEq, Prod.mk.injEq] at h
        rw [← h.1]

theorem endsInEscape_append_percent :
    ∀ (n : Nat) (x : List Char), x.length ≤ n → endsInEscape (x ++ ['%']) = false := by
  intro n
  induction n with
  | zero =>
    intro x hx
    have : x = [] := List.length_eq_zero.mp (Nat.le_zero.mp hx)
    subst this
    decide
  | succ n ih =>
    intro x hx
    cases x with
    | nil => decide
    | cons c r =>
      by_cases hc : c = '\\'
      · cases r with
        | nil => subst hc; decide
        | cons e r' =>
          subst hc
          rw [List.cons_append, List.cons_append, endsInEscape_escaped]
          exact ih r' (by simp only [List.length_cons] at hx; omega)
      · rw [List.cons_append, endsInEscape_cons_of_ne c _ hc]
        exact ih r (by simp only [List.length_cons] at hx; omega)

theorem scanText_ne_error (f : Char) (attempt : List Char → LikeResult)
    (herr : ∀ v, attempt v ≠ .error) :
    ∀ (t : List Char), scanText f attempt t ≠ .error := by
  intro t
  induction t with
  | nil => rw [scanText]; intro h; cases h
  | cons c t ih =>
    rw [scanText]
    by_cases hcf : c = f
    · rw [if_pos hcf]
      cases hres : attempt (c :: t) with
      | LIKE_TRUE => intro h; cases h
      | LIKE_FALSE => exact ih
      | LIKE_ABORT => intro h; cases h
      | error => exact absurd hres (herr _)
    · rw [if_neg hcf]; exact ih

/-- A pattern that does not end in the escape character raises no error. -/
theorem matchLoop_ne_error :
    ∀ (fuel : Nat) (t p : List Char), endsInEscape p = false → matchLoop fuel t p ≠ .error := by
  intro fuel
  induction fuel with
  | zero =>
    intro t p _
    cases p with
    | nil => rw [matchLoop_nil_pattern]; split <;> (intro h; cases h)
    | cons c p =>
      cases t with
      | nil => rw [matchLoop_nil_text]; split <;> (intro h; cases h)
      | cons d t => intro h; cases h
  | succ fuel ih =>
    intro t p hp
    cases p with
    | nil => rw [matchLoop_nil_pattern]; split <;> (intro h; cases h)
    | cons c p =>
      cases t with
      | nil => rw [matchLoop_nil_text]; split <;> (intro h; cases h)
      | cons d t =>
        rw [matchLoop_succ]
        by_cases h1 : c = '\\'
        · rw [if_pos h1]
          subst h1
          cases p with
          | nil => exact absurd hp (by decide)
          | cons e p' =>
            rw [endsInEscape_escaped] at hp
            show (if e = d then matchLoop fuel t p' else LikeResult.LIKE_FALSE) ≠ .error
            split
            · exact ih t p' hp
            · intro h; cases h
        · rw [if_neg h1]
          rw [endsInEscape_cons_of_ne c p h1] at hp
          by_cases h2 : c = '%'
          · rw [if_pos h2]
            cases hsk : skipWildcards p (d :: t) with
            | none => intro h; cases h
            | some res =>
              obtain ⟨p', u⟩ := res
              have hp' : endsInEscape p' = false := by
                rw [skipWildcards_endsInEscape p (d :: t) p' u hsk]; exact hp
              cases p' with
              | nil => intro h; cases h
              | cons f q =>
                have htry : ∀ v, (if f :: q = ['%'] then LikeResult.LIKE_TRUE
                    else matchLoop fuel v (f :: q)) ≠ .error := by
                  intro v
                  split
                  · intro h; cases h
                  · exact ih v (f :: q) hp'
                dsimp only
                by_cases h3 : f = '\\'
                · rw [if_pos h3]
                  subst h3
                  cases q with
                  | nil => exact absurd hp' (by decide)
                  | cons e q' => exact scanText_ne_error e _ htry u
                · rw [if_neg h3]
                  exact scanText_ne_error f _ htry u
          · rw [if_neg h2]
            by_cases h3 : c = '_'
            · rw [if_pos h3]; exact ih t p hp
            · rw [if_neg h3]
              split
              · exact ih t p hp
              · intro h; cases h

theorem MatchText_ne_error (t p : List Char) (hp : endsInEscape p = false) :
    MatchText t p ≠ .error := by
  unfold MatchText
  split
  · intro h; cases h
  · exact matchLoop_ne_error _ t p hp

/-- The bound of `matchLoop` is never reached: any two bounds of at least
the length of the pattern give the same result. -/
theorem matchLoop_fuel :
    ∀ (f1 f2 : Nat) (t p : List Char), p.length ≤ f1 → p.length ≤ f2 →
      matchLoop f1 t p = matchLoop f2 t p := by
  intro f1
  induction f1 with
  | zero =>
    intro f2 t p h1 _
    have hp : p = [] := List.length_eq_zero.mp (Nat.le_zero.mp h1)
    subst hp
    rw [matchLoop_nil_pattern, matchLoop_nil_pattern]
  | succ f1 ih =>
    intro f2 t p h1 h2
    cases p with
    | nil => rw [matchLoop_nil_pattern, matchLoop_nil_pattern]
    | cons c p =>
      cases t with
      | nil => rw [matchLoop_nil_text, matchLoop_nil_text]
      | cons d t =>
        cases f2 with
        | zero => simp at h2
        | succ f2 =>
          have hl1 : p.length ≤ f1 := by simp only [List.length_cons] at h1; omega
          have hl2 : p.length ≤ f2 := by simp only [List.length_cons] at h2; omega
          rw [matchLoop_succ, matchLoop_succ, ih f2 t p hl1 hl2]
          cases p with
          | nil =>
            simp only [skipWildcards]
          | cons e p' =>
            have hl1' : p'.length ≤ f1 := by simp only [List.length_cons] at hl1; omega
            have hl2' : p'.length ≤ f2 := by simp only [List.length_cons] at hl2; omega
            have hsk : ∀ q u, skipWildcards (e :: p') (d :: t) = some (q, u) →
                (fun v => if q = ['%'] then LikeResult.LIKE_TRUE else matchLoop f1 v q)
                  = (fun v => if q = ['%'] then LikeResult.LIKE_TRUE else matchLoop f2 v q) := by
              intro q u hq
              have hlen := skipWildcards_length _ _ _ _ hq
              funext v
              rw [ih f2 v q (by omega) (by omega)]
            simp only [ih f2 t p' hl1' hl2']
            cases hres : skipWildcards (e :: p') (d :: t) with
            | none => rfl
            | some res =>
              obtain ⟨q, u⟩ := res
              cases q with
              | nil => rfl
              | cons f q' =>
                simp only [hsk (f :: q') u hres]


theorem likeValue_of_ne_error (r : LikeResult) (h : r ≠ .error) :
    likeValue r = .ok (decide (r = .LIKE_TRUE)) := by
  cases r with
  | LIKE_TRUE => rfl
  | LIKE_FALSE => rfl
  | LIKE_ABORT => rfl
  | error => exact absurd rfl h

/-- The pattern `'%' || filter || '%'` after case folding. -/
theorem wrapped_pattern_data (locale : Locale) (g : String) :
    ("%" ++ g ++ "%").data.map locale.lower = '%' :: (g.data.map locale.lower ++ ['%']) := by
  have hdata : ("%" ++ g ++ "%").data = '%' :: (g.data ++ ['%']) := by
    simp only [String.data_append]; rfl
  have hp : locale.lower '%' = '%' := locale.lower_meta '%' (by decide)
  rw [hdata]
  simp only [List.map_cons, List.map_append, List.map_nil, hp]

/-- The predicates on group name and song name raise no error, whatever the
filter: their pattern ends in `%`. -/
theorem sqlILike_wrapped_ok (locale : Locale) (name g : String) :
    sqlILike locale name ("%" ++ g ++ "%") =
      .ok (decide (MatchText (name.data.map locale.lower)
        ('%' :: (g.data.map locale.lower ++ ['%'])) = .LIKE_TRUE)) := by
  unfold sqlILike
  rw [wrapped_pattern_data]
  apply likeValue_of_ne_error
  apply MatchText_ne_error
  have h := endsInEscape_append_percent _ ('%' :: g.data.map locale.lower) (Nat.le_refl _)
  rw [List.cons_append] at h
  exact h

/-- The group predicate of the listing query, for a filter of plain
characters: the row passes when its group name contains the filter, both
folded by the locale. -/
theorem sqlILike_percent_plain_percent (locale : Locale) (name g : String)
    (hg : ∀ c ∈ g.data, isLikeMeta c = false) :
    sqlILike locale name ("%" ++ g ++ "%") = .ok true ↔ containsFold locale name g := by
  have hplain : ∀ c ∈ g.data.map locale.lower, isLikeMeta c = false := by
    intro c hc
    obtain ⟨x, hx, rfl⟩ := List.mem_map.mp hc
    exact locale.lower_plain x (hg x hx)
  have hm := (MatchText_percent_plain_percent (g.data.map locale.lower)
    (name.data.map locale.lower) hplain).1
  rw [sqlILike_wrapped_ok]
  unfold containsFold
  rw [← hm]
  simp

/-- The release-date predicate raises no error when the filter does not end
in the escape character. -/
theorem sqlLike_ok (text pattern : String) (hp : endsInEscape pattern.data = false) :
    sqlLike text pattern = .ok (decide (MatchText text.data pattern.data = .LIKE_TRUE)) := by
  unfold sqlLike
  exact likeValue_of_ne_error _ (MatchText_ne_error _ _ hp)

/-- The `WHERE` clause when none of its three conjuncts raises an error. -/
theorem listWhere_of_ok (locale : Locale) (filter : SongFilter) (r : Song) (bg bs bd : Bool)
    (hg : (if filter.GroupName == "" then Except.ok true
           else sqlILike locale r.GroupName ("%" ++ filter.GroupName ++ "%")) = .ok bg)
    (hs : (if filter.SongName == "" then Except.ok true
           else sqlILike locale r.SongName ("%" ++ filter.SongName ++ "%")) = .ok bs)
    (hd : (if filter.ReleaseDate == "" then Except.ok true
           else sqlLike r.ReleaseDate filter.ReleaseDate) = .ok bd) :
    listWhere locale filter r = .ok (bg && bs && bd) := by
  unfold listWhere
  rw [hg]
  cases bg with
  | false => rfl
  | true =>
    simp only
    rw [hs]
    cases bs with
    | false => rfl
    | true =>
      simp only
      rw [hd]
      rfl

/-- A scan in which no row raises an error returns the rows that pass. -/
theorem selectWhere_of_ok (locale : Locale) (filter : SongFilter) :
    ∀ (rows : List Song), (∀ r ∈ rows, ∃ b, listWhere locale filter r = .ok b) →
      selectWhere locale filter rows
        = .ok (rows.filter (fun r => decide (listWhere locale filter r = .ok true))) := by
  intro rows
  induction rows with
  | nil => intro _; rfl
  | cons r rs ih =>
    intro h
    obtain ⟨b, hb⟩ := h r (by simp)
    have hrec := ih (fun x hx => h x (List.mem_cons_of_mem _ hx))
    rw [selectWhere, hb]
    simp only
    rw [hrec]
    cases b with
    | false => simp [List.filter_cons, hb]
    | true => simp [List.filter_cons, hb]

/-! ## Auxiliary facts: joining the split, gluing pages -/

/-- The separator stands at the position `Index` returns. -/
theorem Index_some_split {sep : List Char} :
    ∀ {s : List Char} {m : Nat}, Index s sep = some m →
      s = s.take m ++ sep ++ s.drop (m + sep.length) := by
  intro s
  induction s with
  | nil =>
    intro m h
    rw [Index] at h
    split at h
    · rename_i hp
      obtain ⟨t, ht⟩ := List.isPrefixOf_iff_prefix.mp hp
      have hsep : sep = [] := (List.append_eq_nil.mp ht).1
      subst hsep
      simp
    · simp at h
  | cons c t ih =>
    intro m h
    rw [Index_cons] at h
    split at h
    · rename_i hp
      obtain ⟨r, hr⟩ := List.isPrefixOf_iff_prefix.mp hp
      simp only [Option.some.injEq] at h
      subst h
      rw [← hr]
      simp
    · cases hi : Index t sep with
      | none => simp [hi] at h
      | some j =>
        simp only [hi, Option.map_some', Option.some.injEq] at h
        subst h
        have hrec := ih hi
        have hadd : j + 1 + sep.length = (j + sep.length) + 1 := by omega
        rw [hadd, List.take_succ_cons, List.drop_succ_cons, List.cons_append, List.cons_append,
          ← hrec]

theorem genSplitLoop_ne_nil (sep : List Char) :
    ∀ (k : Nat) (s : List Char), genSplitLoop sep k s ≠ [] := by
  intro k s
  cases k with
  | zero => simp [genSplitLoop]
  | succ k =>
    rw [genSplitLoop]
    cases Index s sep <;> simp

theorem joinRunes_cons_of_ne_nil (sep p : List Char) :
    ∀ (ps : List (List Char)), ps ≠ [] →
      joinRunes sep (p :: ps) = p ++ sep ++ joinRunes sep ps := by
  intro ps h
  cases ps with
  | nil => exact absurd rfl h
  | cons q rest => rfl

/-- Joining what the split loop returns gives the text back, wherever the
loop stops. -/
theorem joinRunes_genSplitLoop (sep : List Char) :
    ∀ (k : Nat) (s : List Char), joinRunes sep (genSplitLoop sep k s) = s := by
  intro k
  induction k with
  | zero => intro s; rfl
  | succ k ih =>
    intro s
    rw [genSplitLoop]
    cases hi : Index s sep with
    | none => rfl
    | some m =>
      simp only
      rw [joinRunes_cons_of_ne_nil _ _ _ (genSplitLoop_ne_nil sep k _), ih]
      exact (Index_some_split hi).symm

theorem Join_Split (s : String) : Join (Split s "\n\n") "\n\n" = s := by
  have hv : ("\n\n" : String).data ≠ [] := by decide
  have hmap : (Split s "\n\n").map String.data = genSplit s.data ("\n\n" : String).data := by
    unfold Split
    rw [List.map_map]
    have hid : (String.data ∘ String.mk) = id := by
      funext l; rfl
    rw [hid, List.map_id]
  unfold Join
  rw [hmap]
  unfold genSplit
  rw [if_neg hv]
  simp only [joinRunes_genSplitLoop]

/-- Consecutive pages of `s` elements glue to a prefix of the list. -/
theorem pages_flatten {α : Type} (xs : List α) (s : Nat) :
    ∀ (m : Nat),
      ((List.range m).map
        (fun i => (xs.take (min (i * s + s) xs.length)).drop (i * s))).flatten
        = xs.take (m * s) := by
  intro m
  induction m with
  | zero => simp
  | succ m ih =>
    rw [List.range_succ, List.map_append, List.flatten_append, ih]
    simp only [List.map_cons, List.map_nil, List.flatten_cons, List.flatten_nil,
      List.append_nil]
    have hmin : xs.take (min (m * s + s) xs.length) = xs.take (m * s + s) := by
      rw [List.take_eq_take]; omega
    have hsucc : (m + 1) * s = m * s + s := Nat.succ_mul m s
    rw [hmin, hsucc]
    generalize m * s = a
    have h1 : (xs.take (a + s)).take a = xs.take a := by
      rw [List.take_take]; congr 1; omega
    calc xs.take a ++ (xs.take (a + s)).drop a
        = (xs.take (a + s)).take a ++ (xs.take (a + s)).drop a := by rw [h1]
      _ = xs.take (a + s) := List.take_append_drop _ _


/-! ## Verse pagination -/

/-- The arithmetic of `GetSongWithVerses` for a page that starts inside the
verse list: nothing wraps, and the slice bounds are the mathematical ones. -/
theorem pagination_in_range {page pageSize n len : Nat}
    (hn : 2 * n ≤ len + 2) (hlen : (len : Int) ≤ maxInt)
    (hpage : 1 ≤ page) (hpageInt : (page : Int) ≤ maxInt)
    (hsize : 1 ≤ pageSize) (hsizeInt : (pageSize : Int) ≤ maxInt)
    (hstart : (page - 1) * pageSize < n) :
    wrapInt (wrapInt ((page : Int) - 1) * (pageSize : Int)) = (((page - 1) * pageSize : Nat) : Int) ∧
    wrapInt ((((page - 1) * pageSize : Nat) : Int) + (pageSize : Int))
      = (((page - 1) * pageSize + pageSize : Nat) : Int) := by
  unfold maxInt at hlen hpageInt hsizeInt
  have h1 : wrapInt ((page : Int) - 1) = ((page - 1 : Nat) : Int) := by
    unfold wrapInt; omega
  have hcast : ((page - 1 : Nat) : Int) * (pageSize : Int) = (((page - 1) * pageSize : Nat) : Int) := by
    push_cast; rfl
  have hsum : page = 1 ∨ pageSize ≤ (page - 1) * pageSize := by
    rcases Nat.lt_or_ge 1 page with h | h
    · right; exact Nat.le_mul_of_pos_left _ (by omega)
    · left; omega
  have hzero : page = 1 → (page - 1) * pageSize = 0 := by
    intro h; subst h; simp
  rw [h1, hcast]
  generalize (page - 1) * pageSize = a at *
  constructor
  · unfold wrapInt; omega
  · unfold wrapInt
    rcases hsum with h | h
    · have := hzero h; omega
    · omega

/-- A page that starts inside the verse list is returned: the result of
`GetSongWithVerses` when `(page-1)*pageSize` is below the number of verses. -/
theorem GetSongWithVerses_inside
    (w : World) (id : Int) (song : Song) (page pageSize : Nat)
    (hstored : Stored w id song)
    (hlen : (song.Text.length : Int) ≤ maxInt)
    (hpage : 1 ≤ page) (hpageInt : (page : Int) ≤ maxInt)
    (hsize : 1 ≤ pageSize) (hsizeInt : (pageSize : Int) ≤ maxInt)
    (hstart : (page - 1) * pageSize < (versesOf song).length) :
    (SongService.GetSongWithVerses w id ⟨page, pageSize⟩).1 =
      .ok { toSong := song,
            Verses := ((versesOf song).take
              (min ((page - 1) * pageSize + pageSize) (versesOf song).length)).drop
                ((page - 1) * pageSize),
            TotalVerses := (versesOf song).length,
            CurrentPage := page } := by
  obtain ⟨h1, h2⟩ := pagination_in_range (versesOf_length_le song) hlen hpage hpageInt
    hsize hsizeInt hstart
  rw [GetSongWithVerses_stored hstored]
  simp only [h1, h2]
  generalize (page - 1) * pageSize = a at *
  generalize versesOf song = vs at *
  have hlt : ¬ ((a : Int) ≥ (vs.length : Int)) := by omega
  rw [if_neg hlt]
  by_cases hgt : ((a + pageSize : Nat) : Int) > (vs.length : Int)
  · have hmin : min (a + pageSize) vs.length = vs.length := by omega
    simp only [if_pos hgt, hmin, sliceExpr]
    rw [if_pos (by omega)]
    simp only [Int.toNat_ofNat, List.drop_take]
  · have hmin : min (a + pageSize) vs.length = a + pageSize := by omega
    simp only [if_neg hgt, hmin, sliceExpr]
    rw [if_pos (by omega)]
    simp only [Int.toNat_ofNat, List.drop_take]

/-- A page that starts at or after the end of the verse list is refused, as
long as the product `(page-1)*pageSize` is representable. -/
theorem GetSongWithVerses_outside
    (w : World) (id : Int) (song : Song) (page pageSize : Nat)
    (hstored : Stored w id song)
    (hpage : 1 ≤ page) (hpageInt : (page : Int) ≤ maxInt)
    (hprod : (((page - 1) * pageSize : Nat) : Int) ≤ maxInt)
    (hstart : (versesOf song).length ≤ (page - 1) * pageSize) :
    (SongService.GetSongWithVerses w id ⟨page, pageSize⟩).1 = .error errPageExceeds := by
  have h2 := offset_no_wrap hpage hpageInt hprod
  rw [GetSongWithVerses_stored hstored]
  dsimp only
  rw [h2, if_pos (by omega)]

/-- C1: for a stored song, a page number of at least 1 and a page size of at
least 1, when `startIndex = (page-1)*pageSize` lies below the number of
verses, `GetSongWithVerses` succeeds with the song unchanged, the verses
`verses[startIndex : min(startIndex+pageSize, totalVerses)]`, the total
number of verses and the requested page number.  Page and page size are Go
`int` values and the text is a Go string (its length fits in an `int`). -/
theorem getSongWithVerses_returns_requested_page
    (w : World) (id : Int) (song : Song) (page pageSize : Nat)
    (hstored : Stored w id song)
    (hlen : (song.Text.length : Int) ≤ maxInt)
    (hpage : 1 ≤ page) (hpageInt : (page : Int) ≤ maxInt)
    (hsize : 1 ≤ pageSize) (hsizeInt : (pageSize : Int) ≤ maxInt)
    (hstart : (page - 1) * pageSize < (versesOf song).length) :
    (SongService.GetSongWithVerses w id ⟨page, pageSize⟩).1 =
      .ok { toSong := song,
            Verses := ((versesOf song).take
              (min ((page - 1) * pageSize + pageSize) (versesOf song).length)).drop
                ((page - 1) * pageSize),
            TotalVerses := (versesOf song).length,
            CurrentPage := page } :=
  GetSongWithVerses_inside w id song page pageSize hstored hlen hpage hpageInt hsize hsizeInt
    hstart

/-- Witness for C1: page 2 of size 2 of a stored song with three verses. -/
theorem getSongWithVerses_returns_requested_page_witness :
    (SongService.GetSongWithVerses
        ⟨⟨[⟨7, "Muse", "Uprising", "2009-09-07", "a\n\nb\n\nc", "http://x", 0, 0⟩], 8, 1, none⟩, []⟩
        7 ⟨2, 2⟩).1 =
      .ok { toSong := ⟨7, "Muse", "Uprising", "2009-09-07", "a\n\nb\n\nc", "http://x", 0, 0⟩,
            Verses := ["c"], TotalVerses := 3, CurrentPage := 2 } :=
  getSongWithVerses_returns_requested_page
    ⟨⟨[⟨7, "Muse", "Uprising", "2009-09-07", "a\n\nb\n\nc", "http://x", 0, 0⟩], 8, 1, none⟩, []⟩
    7 ⟨7, "Muse", "Uprising", "2009-09-07", "a\n\nb\n\nc", "http://x", 0, 0⟩ 2 2
    (by decide) (by decide) (by decide) (by decide) (by decide) (by decide) (by decide)

/-- Counterexample to C2 as stated: a stored song with one verse, page
`2^62 + 1` and page size 4.  Both are Go `int` values of at least 1 and the
product `(page-1)*pageSize = 2^64` is not below the number of verses, yet the
product wraps to 0 and the call returns the first page instead of the
page-out-of-range error. -/
theorem getSongWithVerses_overflow_not_refused :
    Stored ⟨⟨[⟨1, "Muse", "Uprising", "2009-09-07", "a", "http://x", 0, 0⟩], 2, 1, none⟩, []⟩ 1
        ⟨1, "Muse", "Uprising", "2009-09-07", "a", "http://x", 0, 0⟩ ∧
    IsInt 4611686018427387905 ∧ IsInt 4 ∧
    (versesOf ⟨1, "Muse", "Uprising", "2009-09-07", "a", "http://x", 0, 0⟩).length
      ≤ (4611686018427387905 - 1) * 4 ∧
    (SongService.GetSongWithVerses
        ⟨⟨[⟨1, "Muse", "Uprising", "2009-09-07", "a", "http://x", 0, 0⟩], 2, 1, none⟩, []⟩
        1 ⟨4611686018427387905, 4⟩).1 =
      .ok { toSong := ⟨1, "Muse", "Uprising", "2009-09-07", "a", "http://x", 0, 0⟩,
            Verses := ["a"], TotalVerses := 1, CurrentPage := 4611686018427387905 } ∧
    (SongService.GetSongWithVerses
        ⟨⟨[⟨1, "Muse", "Uprising", "2009-09-07", "a", "http://x", 0, 0⟩], 2, 1, none⟩, []⟩
        1 ⟨4611686018427387905, 4⟩).1 ≠ .error errPageExceeds := by
  decide

/-- C2 (amended): for a stored song with `n` verses, a page number of at
least 1 and a page size of at least 1 whose product `(page-1)*pageSize` is
representable as a Go `int`, `GetSongWithVerses` fails with the
page-out-of-range error if and only if `(page-1)*pageSize ≥ n`; and for
every stored song with 5 verses and page size 4, page 1 returns
`verses[0:4]`, page 2 returns `verses[4:5]` and page 3 fails. -/
theorem getSongWithVerses_refuses_iff_past_end
    (w : World) (id : Int) (song : Song) (page pageSize : Nat)
    (hstored : Stored w id song)
    (hlen : (song.Text.length : Int) ≤ maxInt)
    (hpage : 1 ≤ page) (hpageInt : (page : Int) ≤ maxInt)
    (hsize : 1 ≤ pageSize) (hsizeInt : (pageSize : Int) ≤ maxInt)
    (hprod : (((page - 1) * pageSize : Nat) : Int) ≤ maxInt) :
    ((SongService.GetSongWithVerses w id ⟨page, pageSize⟩).1 = .error errPageExceeds
        ↔ (versesOf song).length ≤ (page - 1) * pageSize) ∧
    ((versesOf song).length = 5 →
      (SongService.GetSongWithVerses w id ⟨1, 4⟩).1 =
        .ok { toSong := song, Verses := (versesOf song).take 4,
              TotalVerses := 5, CurrentPage := 1 } ∧
      (SongService.GetSongWithVerses w id ⟨2, 4⟩).1 =
        .ok { toSong := song, Verses := ((versesOf song).take 5).drop 4,
              TotalVerses := 5, CurrentPage := 2 } ∧
      (SongService.GetSongWithVerses w id ⟨3, 4⟩).1 = .error errPageExceeds) := by
  refine ⟨⟨?_, ?_⟩, ?_⟩
  · intro herr
    by_contra hlt
    have hok := GetSongWithVerses_inside w id song page pageSize hstored hlen hpage hpageInt
      hsize hsizeInt (by omega)
    rw [hok] at herr
    cases herr
  · intro hge
    exact GetSongWithVerses_outside w id song page pageSize hstored hpage hpageInt hprod hge
  · intro h5
    have p1 := GetSongWithVerses_inside w id song 1 4 hstored hlen (by decide) (by decide)
      (by decide) (by decide) (by rw [h5]; decide)
    have p2 := GetSongWithVerses_inside w id song 2 4 hstored hlen (by decide) (by decide)
      (by decide) (by decide) (by rw [h5]; decide)
    have p3 := GetSongWithVerses_outside w id song 3 4 hstored (by decide) (by decide)
      (by decide) (by rw [h5]; decide)
    rw [h5] at p1 p2
    exact ⟨p1, p2, p3⟩

/-- Witness for C2 (amended): a stored song with five verses, page 2 of size 4. -/
theorem getSongWithVerses_refuses_iff_past_end_witness :
    ((SongService.GetSongWithVerses
        ⟨⟨[⟨1, "Muse", "Uprising", "2009-09-07", "a\n\nb\n\nc\n\nd\n\ne", "http://x", 0, 0⟩],
          2, 1, none⟩, []⟩ 1 ⟨(2 : Nat), (4 : Nat)⟩).1 = .error errPageExceeds
        ↔ (versesOf ⟨1, "Muse", "Uprising", "2009-09-07", "a\n\nb\n\nc\n\nd\n\ne", "http://x", 0, 0⟩).length
            ≤ (2 - 1) * 4) :=
  (getSongWithVerses_refuses_iff_past_end
    ⟨⟨[⟨1, "Muse", "Uprising", "2009-09-07", "a\n\nb\n\nc\n\nd\n\ne", "http://x", 0, 0⟩],
      2, 1, none⟩, []⟩ 1
    ⟨1, "Muse", "Uprising", "2009-09-07", "a\n\nb\n\nc\n\nd\n\ne", "http://x", 0, 0⟩ 2 4
    (by decide) (by decide) (by decide) (by decide) (by decide) (by decide) (by decide)).1

/-- Counterexample to C3 as stated: a stored song whose text is empty, page 1
and page size 4.  `strings.Split` of the empty string is the one-element
list holding the empty string, so there is one verse and the call succeeds. -/
theorem getSongWithVerses_empty_text_not_refused :
    Stored ⟨⟨[⟨1, "Muse", "Uprising", "2009-09-07", "", "http://x", 0, 0⟩], 2, 1, none⟩, []⟩ 1
        ⟨1, "Muse", "Uprising", "2009-09-07", "", "http://x", 0, 0⟩ ∧
    (SongService.GetSongWithVerses
        ⟨⟨[⟨1, "Muse", "Uprising", "2009-09-07", "", "http://x", 0, 0⟩], 2, 1, none⟩, []⟩
        1 ⟨1, 4⟩).1 =
      .ok { toSong := ⟨1, "Muse", "Uprising", "2009-09-07", "", "http://x", 0, 0⟩,
            Verses := [""], TotalVerses := 1, CurrentPage := 1 } ∧
    (SongService.GetSongWithVerses
        ⟨⟨[⟨1, "Muse", "Uprising", "2009-09-07", "", "http://x", 0, 0⟩], 2, 1, none⟩, []⟩
        1 ⟨1, 4⟩).1 ≠ .error errPageExceeds := by
  decide

/-- C3 (amended): for a stored song whose text is the empty string and every
page size of at least 1, `GetSongWithVerses` with page 1 succeeds and returns
the song with the single empty verse, a total of 1 verse and page number 1. -/
theorem getSongWithVerses_empty_text_one_verse
    (w : World) (id : Int) (song : Song) (pageSize : Nat)
    (hstored : Stored w id song) (htext : song.Text = "")
    (hsize : 1 ≤ pageSize) (hsizeInt : (pageSize : Int) ≤ maxInt) :
    (SongService.GetSongWithVerses w id ⟨1, pageSize⟩).1 =
      .ok { toSong := song, Verses := [""], TotalVerses := 1, CurrentPage := 1 } := by
  have hv : versesOf song = [""] := by
    unfold versesOf; rw [htext]; decide
  have hlen : (song.Text.length : Int) ≤ maxInt := by rw [htext]; decide
  have h := GetSongWithVerses_inside w id song 1 pageSize hstored hlen (by decide) (by decide)
    hsize hsizeInt (by rw [hv]; simp)
  rw [hv] at h
  have hmin : min ((1 - 1) * pageSize + pageSize) [""].length = 1 := by
    simp only [List.length_singleton]; omega
  rw [hmin] at h
  simpa using h

/-- Witness for C3 (amended): a stored song with empty text, page size 4. -/
theorem getSongWithVerses_empty_text_one_verse_witness :
    (SongService.GetSongWithVerses
        ⟨⟨[⟨1, "Muse", "Uprising", "2009-09-07", "", "http://x", 0, 0⟩], 2, 1, none⟩, []⟩
        1 ⟨1, (4 : Nat)⟩).1 =
      .ok { toSong := ⟨1, "Muse", "Uprising", "2009-09-07", "", "http://x", 0, 0⟩,
            Verses := [""], TotalVerses := 1, CurrentPage := 1 } :=
  getSongWithVerses_empty_text_one_verse
    ⟨⟨[⟨1, "Muse", "Uprising", "2009-09-07", "", "http://x", 0, 0⟩], 2, 1, none⟩, []⟩
    1 ⟨1, "Muse", "Uprising", "2009-09-07", "", "http://x", 0, 0⟩ 4
    (by decide) rfl (by decide) (by decide)

/-! ## The verse split -/

/-- Counterexample to C4 as stated.  The pieces `"a\n"` and `"b"` hold no
blank line, the first has no leading and the last no trailing whitespace,
yet the text `"a\n" + "\n\n" + "b"` is split at its first two newlines into
`"a"` and `"\nb"`.  The pieces `""` and `"b"` meet the conditions as well,
and the text `"\n\nb"` is trimmed to the single verse `"b"`. -/
theorem versesOf_joined_pieces_differs :
    (∀ p ∈ ["a\n", "b"], ¬ verseSep <:+: p.data) ∧
    (∀ c, ("a\n" : String).data.head? = some c → isSpace c = false) ∧
    (∀ c, ("b" : String).data.getLast? = some c → isSpace c = false) ∧
    versesOf ⟨1, "Muse", "Uprising", "2009-09-07", Join ["a\n", "b"] "\n\n", "http://x", 0, 0⟩
      = ["a", "\nb"] ∧
    versesOf ⟨1, "Muse", "Uprising", "2009-09-07", Join ["a\n", "b"] "\n\n", "http://x", 0, 0⟩
      ≠ ["a\n", "b"] ∧
    (∀ p ∈ ["", "b"], ¬ verseSep <:+: p.data) ∧
    (∀ c, ("" : String).data.head? = some c → isSpace c = false) ∧
    versesOf ⟨1, "Muse", "Uprising", "2009-09-07", Join ["", "b"] "\n\n", "http://x", 0, 0⟩
      = ["b"] ∧
    versesOf ⟨1, "Muse", "Uprising", "2009-09-07", Join ["", "b"] "\n\n", "http://x", 0, 0⟩
      ≠ ["", "b"] := by
  refine ⟨by decide, ?_, ?_, by decide, by decide, by decide, ?_, by decide, by decide⟩
  · intro c h
    have hc : c = 'a' := by
      have : some 'a' = some c := h
      exact (Option.some.inj this).symm
    subst hc; decide
  · intro c h
    have hc : c = 'b' := by
      have : some 'b' = some c := h
      exact (Option.some.inj this).symm
    subst hc; decide
  · intro c h
    have hnone : (none : Option Char) = some c := h
    cases hnone

/-- C4 (amended): the verse list is the split of the trimmed text at blank
lines.  A text whose trimmed form holds no `"\n\n"` gives exactly one verse,
the trimmed text.  For pieces `p1..pk`, `k ≥ 1`, that hold no `"\n\n"`, where
no piece other than the last ends in a newline, `p1` has no leading and `pk`
no trailing whitespace, and `p1` and `pk` are not empty when `k ≥ 2`, the
text `p1 + "\n\n" + ... + "\n\n" + pk` gives exactly `[p1, ..., pk]`; so
`"a\n\nb\n\nc"` gives `["a","b","c"]` and `"a"` gives `["a"]`. -/
theorem versesOf_is_split_at_blank_lines (song : Song) :
    (¬ verseSep <:+: (TrimSpace song.Text).data → versesOf song = [TrimSpace song.Text]) ∧
    (∀ (pieces : List String) (hne : pieces ≠ []),
      (∀ p ∈ pieces, ¬ verseSep <:+: p.data) →
      (∀ p ∈ pieces.dropLast, p.data.getLast? ≠ some '\n') →
      (∀ c, (pieces.head hne).data.head? = some c → isSpace c = false) →
      (∀ c, (pieces.getLast hne).data.getLast? = some c → isSpace c = false) →
      (2 ≤ pieces.length → pieces.head hne ≠ "" ∧ pieces.getLast hne ≠ "") →
      song.Text = Join pieces "\n\n" → versesOf song = pieces) ∧
    (song.Text = "a\n\nb\n\nc" → versesOf song = ["a", "b", "c"]) ∧
    (song.Text = "a" → versesOf song = ["a"]) := by
  have hv : verseSep ≠ [] := by decide
  refine ⟨?_, ?_, ?_, ?_⟩
  · intro hno
    have hidx : Index (TrimSpace song.Text).data verseSep = none := Index_none_of_not_infix hno
    have hcount : countLoop verseSep (TrimSpace song.Text).data.length (TrimSpace song.Text).data
        = 0 := by
      cases (TrimSpace song.Text).data.length with
      | zero => rfl
      | succ n => simp [countLoop, hidx]
    have hsplit : genSplit (TrimSpace song.Text).data verseSep = [(TrimSpace song.Text).data] := by
      unfold genSplit Count
      rw [if_neg hv, if_neg hv, hcount]
      have hn : min (0 + 1) ((TrimSpace song.Text).data.length + 1) - 1 = 0 := by omega
      simp only [hn, genSplitLoop]
    show (genSplit (TrimSpace song.Text).data verseSep).map String.mk = _
    rw [hsplit]
    rfl
  · intro pieces hne hsep hnl hlead htrail hedge htext
    have hne' : pieces.map String.data ≠ [] := by simpa using hne
    have hhead : (pieces.map String.data).head hne' = (pieces.head hne).data := by
      simp [List.head_map]
    have hlast : (pieces.map String.data).getLast hne' = (pieces.getLast hne).data := by
      simp [List.getLast_map]
    have hlen : (pieces.map String.data).length = pieces.length := List.length_map _ _
    have hdata : ∀ s : String, s ≠ "" → s.data ≠ [] := by
      intro s hs hd
      apply hs
      cases s
      simp only at hd
      subst hd
      rfl
    have hjoin : (Join pieces "\n\n").data = joinRunes verseSep (pieces.map String.data) := rfl
    have htrim : TrimSpace (Join pieces "\n\n") = Join pieces "\n\n" := by
      show String.mk (trimSpaceRunes (Join pieces "\n\n").data) = _
      rw [hjoin, trimSpaceRunes_eq_self]
      · rfl
      · rw [joinRunes_head_eq _ hne' (by
          intro h2; rw [hhead]; rw [hlen] at h2; exact hdata _ (hedge h2).1), hhead]
        exact hlead
      · rw [joinRunes_getLast_eq _ hne' (by
          intro h2; rw [hlast]; rw [hlen] at h2; exact hdata _ (hedge h2).2), hlast]
        exact htrail
    have hsplit := genSplit_joinRunes (pieces.map String.data) hne'
      (by
        intro p hp
        obtain ⟨s, hs, rfl⟩ := List.mem_map.mp hp
        exact hsep s hs)
      (by
        intro p hp
        rw [← List.map_dropLast] at hp
        obtain ⟨s, hs, rfl⟩ := List.mem_map.mp hp
        exact hnl s hs)
    unfold versesOf
    rw [htext, htrim]
    show (genSplit (Join pieces "\n\n").data verseSep).map String.mk = _
    rw [hjoin, hsplit, List.map_map]
    have hid : (String.mk ∘ String.data) = id := by
      funext s; rfl
    rw [hid, List.map_id]
  · intro h; unfold versesOf; rw [h]; decide
  · intro h; unfold versesOf; rw [h]; decide

/-- Witness for C4 (amended): the pieces `"a"`, `""`, `"\nb"` joined by blank
lines are found again, and a text without blank line is one verse. -/
theorem versesOf_is_split_at_blank_lines_witness :
    versesOf ⟨1, "Muse", "Uprising", "2009-09-07", Join ["a", "", "\nb"] "\n\n", "http://x", 0, 0⟩
      = ["a", "", "\nb"] ∧
    versesOf ⟨1, "Muse", "Uprising", "2009-09-07", Join ["a", "", "\nb"] "\n\n", "http://x", 0, 0⟩
      ≠ [TrimSpace (Join ["a", "", "\nb"] "\n\n")] :=
  ⟨(versesOf_is_split_at_blank_lines
      ⟨1, "Muse", "Uprising", "2009-09-07", Join ["a", "", "\nb"] "\n\n", "http://x", 0, 0⟩).2.1
      ["a", "", "\nb"] (by decide) (by decide) (by decide)
      (by intro c h; have hc : c = 'a' := (Option.some.inj h).symm; subst hc; decide)
      (by intro c h; have hc : c = 'b' := (Option.some.inj h).symm; subst hc; decide)
      (by decide) rfl,
   by decide⟩

/-! ## Creating a song -/

/-- The world after `GetSongInfo`: only the record of calls has grown. -/
theorem GetSongInfo_world (c : MusicAPIClient) (w : World) (group song : String) :
    (c.GetSongInfo w group song).2 = w.log (.apiGet group song) := by
  unfold MusicAPIClient.GetSongInfo
  cases c.endpoint group song with
  | failed err => rfl
  | response code body =>
    by_cases h : code ≠ 200
    · simp only [if_pos h]
    · cases body <;> simp only [if_neg h]

/-- What `CreateSong` does after a successful fetch: it is `Create` on the
enriched song, with the error wrapped. -/
theorem CreateSong_fetched (s : SongService) (w : World) (song : Song) (d : SongDetail)
    (hfetch : (s.apiClient.GetSongInfo w song.GroupName song.SongName).1 = .ok d) :
    s.CreateSong w song =
      match SongRepository.Create (w.log (.apiGet song.GroupName song.SongName))
          { song with ReleaseDate := d.ReleaseDate, Text := d.Text, Link := d.Link } with
      | (some err, song, w) => (some (.wrapf "failed to create song: %w" err), song, w)
      | (none, song, w) => (none, song, w) := by
  have hw := GetSongInfo_world s.apiClient w song.GroupName song.SongName
  have hpair : s.apiClient.GetSongInfo w song.GroupName song.SongName
      = (.ok d, w.log (.apiGet song.GroupName song.SongName)) := by
    rw [← hfetch, ← hw]
  unfold SongService.CreateSong
  rw [hpair]

/-- What `CreateSong` does after a failed fetch. -/
theorem CreateSong_not_fetched (s : SongService) (w : World) (song : Song) (e : GoError)
    (hfetch : (s.apiClient.GetSongInfo w song.GroupName song.SongName).1 = .error e) :
    s.CreateSong w song =
      (some (.wrapf "failed to get song info: %w" e), song,
        w.log (.apiGet song.GroupName song.SongName)) := by
  have hw := GetSongInfo_world s.apiClient w song.GroupName song.SongName
  have hpair : s.apiClient.GetSongInfo w song.GroupName song.SongName
      = (.error e, w.log (.apiGet song.GroupName song.SongName)) := by
    rw [← hfetch, ← hw]
  unfold SongService.CreateSong
  rw [hpair]

/-- The error of `Create` is the fault of the connection. -/
theorem Create_error (w : World) (song : Song) :
    (SongRepository.Create w song).1 = w.db.fault := by
  unfold SongRepository.Create
  cases hf : w.db.fault with
  | some e =>
    have hf2 : (w.log (.dbCreate song)).db.fault = some e := hf
    simp only [hf2]
  | none =>
    have hf2 : (w.log (.dbCreate song)).db.fault = none := hf
    simp only [hf2]

/-- A call of `Create` adds itself to the record of external calls. -/
theorem Create_trace (w : World) (song : Song) :
    (SongRepository.Create w song).2.2.trace = w.trace ++ [.dbCreate song] := by
  unfold SongRepository.Create
  cases hf : w.db.fault with
  | some e =>
    simp only [World.log, hf]
  | none =>
    simp only [World.log, hf]

/-- A successful `Create` returns the row it appends to the table; the row
keeps the five fields of its argument. -/
theorem Create_ok (w : World) (song : Song) (h : (SongRepository.Create w song).1 = none) :
    (SongRepository.Create w song).2.2.db.songs
      = w.db.songs ++ [(SongRepository.Create w song).2.1] ∧
    (SongRepository.Create w song).2.1.GroupName = song.GroupName ∧
    (SongRepository.Create w song).2.1.SongName = song.SongName ∧
    (SongRepository.Create w song).2.1.ReleaseDate = song.ReleaseDate ∧
    (SongRepository.Create w song).2.1.Text = song.Text ∧
    (SongRepository.Create w song).2.1.Link = song.Link := by
  rw [Create_error] at h
  unfold SongRepository.Create
  simp [World.log, h]

/-- After a successful fetch, `CreateSong` returns the song and the world of
`Create` on the enriched song, and fails exactly when `Create` does. -/
theorem CreateSong_fetched_parts (s : SongService) (w : World) (song : Song) (d : SongDetail)
    (hfetch : (s.apiClient.GetSongInfo w song.GroupName song.SongName).1 = .ok d) :
    ((s.CreateSong w song).1 = none ↔
      (SongRepository.Create (w.log (.apiGet song.GroupName song.SongName))
        { song with ReleaseDate := d.ReleaseDate, Text := d.Text, Link := d.Link }).1 = none) ∧
    (s.CreateSong w song).2 =
      (SongRepository.Create (w.log (.apiGet song.GroupName song.SongName))
        { song with ReleaseDate := d.ReleaseDate, Text := d.Text, Link := d.Link }).2 := by
  rw [CreateSong_fetched s w song d hfetch]
  rcases SongRepository.Create (w.log (.apiGet song.GroupName song.SongName))
    { song with ReleaseDate := d.ReleaseDate, Text := d.Text, Link := d.Link }
    with ⟨_ | e, sg, w'⟩
  · exact ⟨⟨fun _ => rfl, fun _ => rfl⟩, rfl⟩
  · exact ⟨⟨fun h => (by cases h), fun h => (by cases h)⟩, rfl⟩

/-- C5: when the metadata fetch succeeds with `d`, `CreateSong` calls the
gateway `Create` with a song whose release date, text and link are those of
`d`, whatever the input held in these fields, and whose group name and song
name are the input's; when `CreateSong` succeeds, the caller's song carries
these five values and is the row added to the store. -/
theorem createSong_enriches_before_create
    (s : SongService) (w : World) (song : Song) (d : SongDetail)
    (hfetch : (s.apiClient.GetSongInfo w song.GroupName song.SongName).1 = .ok d) :
    (∃ arg : Song,
      (s.CreateSong w song).2.2.trace =
        w.trace ++ [.apiGet song.GroupName song.SongName, .dbCreate arg] ∧
      arg.ReleaseDate = d.ReleaseDate ∧ arg.Text = d.Text ∧ arg.Link = d.Link ∧
      arg.GroupName = song.GroupName ∧ arg.SongName = song.SongName) ∧
    ((s.CreateSong w song).1 = none →
      (s.CreateSong w song).2.1.ReleaseDate = d.ReleaseDate ∧
      (s.CreateSong w song).2.1.Text = d.Text ∧
      (s.CreateSong w song).2.1.Link = d.Link ∧
      (s.CreateSong w song).2.1.GroupName = song.GroupName ∧
      (s.CreateSong w song).2.1.SongName = song.SongName ∧
      (s.CreateSong w song).2.2.db.songs = w.db.songs ++ [(s.CreateSong w song).2.1]) := by
  obtain ⟨hiff, hrest⟩ := CreateSong_fetched_parts s w song d hfetch
  constructor
  · refine ⟨{ song with ReleaseDate := d.ReleaseDate, Text := d.Text, Link := d.Link },
      ?_, rfl, rfl, rfl, rfl, rfl⟩
    rw [hrest, Create_trace]
    simp [World.log]
  · intro hok
    obtain ⟨h1, h2, h3, h4, h5, h6⟩ := Create_ok _ _ (hiff.mp hok)
    rw [hrest]
    exact ⟨h4, h5, h6, h2, h3, h1⟩

/-- Witness for C5: the end-to-end example of the specification; the client
supplied a text and a link, which are discarded. -/
theorem createSong_enriches_before_create_witness :
    (SongService.CreateSong
        ⟨⟨"http://api", fun _ _ => .response 200 (.ok ⟨"2006-07-16", "v1\n\nv2", "http://x"⟩)⟩⟩
        ⟨⟨[], 1, 5, none⟩, []⟩
        ⟨0, "Muse", "Supermassive Black Hole", "", "client text", "client link", 0, 0⟩).2.1
      = ⟨1, "Muse", "Supermassive Black Hole", "2006-07-16", "v1\n\nv2", "http://x", 5, 5⟩ ∧
    (SongService.CreateSong
        ⟨⟨"http://api", fun _ _ => .response 200 (.ok ⟨"2006-07-16", "v1\n\nv2", "http://x"⟩)⟩⟩
        ⟨⟨[], 1, 5, none⟩, []⟩
        ⟨0, "Muse", "Supermassive Black Hole", "", "client text", "client link", 0, 0⟩).2.1.Text
      = "v1\n\nv2" :=
  ⟨by decide,
   ((createSong_enriches_before_create
      ⟨⟨"http://api", fun _ _ => .response 200 (.ok ⟨"2006-07-16", "v1\n\nv2", "http://x"⟩)⟩⟩
      ⟨⟨[], 1, 5, none⟩, []⟩
      ⟨0, "Muse", "Supermassive Black Hole", "", "client text", "client link", 0, 0⟩
      ⟨"2006-07-16", "v1\n\nv2", "http://x"⟩ (by decide)).2 (by decide)).2.1⟩

/-- C6: `CreateSong` fails exactly when the metadata fetch fails or the
gateway `Create`, called on the enriched song, fails.  When the fetch fails
`Create` is not called: the store is unchanged and the only new external call
is the fetch.  In every case the fetch is the first new external call and a
call of `Create`, if any, comes after it. -/
theorem createSong_fails_iff_fetch_or_create_fails
    (s : SongService) (w : World) (song : Song) :
    ((s.CreateSong w song).1 ≠ none ↔
      (∃ e, (s.apiClient.GetSongInfo w song.GroupName song.SongName).1 = .error e) ∨
      (∃ d, (s.apiClient.GetSongInfo w song.GroupName song.SongName).1 = .ok d ∧
        (SongRepository.Create (s.apiClient.GetSongInfo w song.GroupName song.SongName).2
          { song with ReleaseDate := d.ReleaseDate, Text := d.Text, Link := d.Link }).1 ≠ none)) ∧
    ((∃ e, (s.apiClient.GetSongInfo w song.GroupName song.SongName).1 = .error e) →
      (s.CreateSong w song).2.2.db = w.db ∧
      (s.CreateSong w song).2.2.trace = w.trace ++ [.apiGet song.GroupName song.SongName]) ∧
    (∃ rest, (s.CreateSong w song).2.2.trace
        = w.trace ++ .apiGet song.GroupName song.SongName :: rest ∧
      (rest = [] ∨ ∃ arg, rest = [.dbCreate arg])) := by
  have hw := GetSongInfo_world s.apiClient w song.GroupName song.SongName
  cases hfetch : (s.apiClient.GetSongInfo w song.GroupName song.SongName).1 with
  | error e =>
    rw [CreateSong_not_fetched s w song e hfetch]
    refine ⟨⟨fun _ => Or.inl ⟨e, rfl⟩, fun _ => by simp⟩, fun _ => ⟨rfl, rfl⟩, [], rfl, Or.inl rfl⟩
  | ok d =>
    obtain ⟨hiff, hrest⟩ := CreateSong_fetched_parts s w song d hfetch
    rw [hw]
    refine ⟨⟨?_, ?_⟩, ?_, ?_⟩
    · intro hfail
      exact Or.inr ⟨d, rfl, fun h => hfail (hiff.mpr h)⟩
    · rintro (⟨e, he⟩ | ⟨d', hd', hcreate⟩)
      · cases he
      · cases hd'
        exact fun h => hcreate (hiff.mp h)
    · rintro ⟨e, he⟩
      cases he
    · refine ⟨[.dbCreate { song with ReleaseDate := d.ReleaseDate, Text := d.Text,
                                      Link := d.Link }], ?_, Or.inr ⟨_, rfl⟩⟩
      rw [hrest, Create_trace]
      simp [World.log]

/-- Witness for C6: the metadata endpoint cannot be reached; `CreateSong`
fails, the store keeps its single row and `Create` is not called. -/
theorem createSong_fails_iff_fetch_or_create_fails_witness :
    (SongService.CreateSong
        ⟨⟨"http://api", fun _ _ => .failed (.transport "connection refused")⟩⟩
        ⟨⟨[⟨1, "ABBA", "Waterloo", "1974-03-04", "w", "http://y", 2, 2⟩], 2, 5, none⟩, []⟩
        ⟨0, "Muse", "Uprising", "", "", "", 0, 0⟩).2.2.db
      = ⟨[⟨1, "ABBA", "Waterloo", "1974-03-04", "w", "http://y", 2, 2⟩], 2, 5, none⟩ ∧
    (SongService.CreateSong
        ⟨⟨"http://api", fun _ _ => .failed (.transport "connection refused")⟩⟩
        ⟨⟨[⟨1, "ABBA", "Waterloo", "1974-03-04", "w", "http://y", 2, 2⟩], 2, 5, none⟩, []⟩
        ⟨0, "Muse", "Uprising", "", "", "", 0, 0⟩).2.2.trace
      = [] ++ [.apiGet "Muse" "Uprising"] :=
  (createSong_fails_iff_fetch_or_create_fails
    ⟨⟨"http://api", fun _ _ => .failed (.transport "connection refused")⟩⟩
    ⟨⟨[⟨1, "ABBA", "Waterloo", "1974-03-04", "w", "http://y", 2, 2⟩], 2, 5, none⟩, []⟩
    ⟨0, "Muse", "Uprising", "", "", "", 0, 0⟩).2.1
    ⟨.wrapf "failed to make request: %w" (.transport "connection refused"), by decide⟩

/-! ## The request layer -/

/-- C7, the code at failing inputs: the status of a handler does not follow
the kind of failure.  `DeleteSong` and `UpdateSong` answer 500 when the song
does not exist; `GetSongVerses` answers 404 for a page out of range;
`GetSong` answers 404 when the store cannot be reached. -/
theorem handler_status_ignores_failure_kind :
    (SongService.DeleteSong ⟨⟨[], 1, 5, none⟩, []⟩ 9).1
      = some (.wrapf "failed to delete song: %w" (.errorf "song with id %d not found" [9])) ∧
    (Handler.DeleteSong ⟨⟨[], 1, 5, none⟩, []⟩ (some 9)).1.status = 500 ∧
    (SongService.UpdateSong ⟨⟨[], 1, 5, none⟩, []⟩
        ⟨9, "Muse", "Uprising", "2009-09-07", "a", "http://x", 0, 0⟩).1
      = some (.wrapf "failed to update song: %w" .ErrNoRows) ∧
    (Handler.UpdateSong ⟨⟨[], 1, 5, none⟩, []⟩ (some 9)
        (some ⟨0, "Muse", "Uprising", "2009-09-07", "a", "http://x", 0, 0⟩)).1.status = 500 ∧
    (SongService.GetSongWithVerses
        ⟨⟨[⟨1, "Muse", "Uprising", "2009-09-07", "a", "http://x", 0, 0⟩], 2, 5, none⟩, []⟩
        1 ⟨2, 4⟩).1 = .error errPageExceeds ∧
    (Handler.GetSongVerses
        ⟨⟨[⟨1, "Muse", "Uprising", "2009-09-07", "a", "http://x", 0, 0⟩], 2, 5, none⟩, []⟩
        (some 1) (some ⟨2, 4⟩)).1.status = 404 ∧
    (SongService.GetSong ⟨⟨[], 1, 5, some (.driver "connection refused")⟩, []⟩ 1).1
      = .error (.wrapf "failed to get song: %w" (.driver "connection refused")) ∧
    (Handler.GetSong ⟨⟨[], 1, 5, some (.driver "connection refused")⟩, []⟩ (some 1)).1.status
      = 404 := by
  decide

/-! ## Listing songs -/

/-- C9, the code at a failing input: the release-date filter `"2006"` is a
substring of the release date `"2006-07-16"` of the only row, yet `List`
returns no row; the pattern is matched against the whole release date.  The
filter `"2006%"` returns the row. -/
theorem list_release_date_filter_matches_whole_text :
    ("2006" : String).data <:+: ("2006-07-16" : String).data ∧
    (SongRepository.List cLocale
        ⟨⟨[⟨1, "Muse", "Supermassive Black Hole", "2006-07-16", "v1\n\nv2", "http://x", 0, 0⟩],
          2, 5, none⟩, []⟩
        ⟨"", "", "2006", 1, 10⟩).1 = .ok [] ∧
    (SongRepository.List cLocale
        ⟨⟨[⟨1, "Muse", "Supermassive Black Hole", "2006-07-16", "v1\n\nv2", "http://x", 0, 0⟩],
          2, 5, none⟩, []⟩
        ⟨"", "", "2006%", 1, 10⟩).1
      = .ok [⟨1, "Muse", "Supermassive Black Hole", "2006-07-16", "v1\n\nv2", "http://x", 0, 0⟩] ∧
    (SongRepository.List cLocale
        ⟨⟨[⟨1, "Muse", "Supermassive Black Hole", "2006-07-16", "v1\n\nv2", "http://x", 0, 0⟩],
          2, 5, none⟩, []⟩
        ⟨"us", "", "", 1, 10⟩).1
      = .ok [⟨1, "Muse", "Supermassive Black Hole", "2006-07-16", "v1\n\nv2", "http://x", 0, 0⟩] := by
  decide

/-- C10: for a stored song, a page number and a page size of at least 1 whose
product `(page-1)*pageSize` is representable as a Go `int`,
`GetSongWithVerses` either returns the page-out-of-range error, or the slice
bounds it computes satisfy `0 ≤ startIdx < endIdx ≤ totalVerses` and the call
succeeds with at least 1 and at most `pageSize` verses. -/
theorem getSongWithVerses_slice_in_bounds
    (w : World) (id : Int) (song : Song) (page pageSize : Nat)
    (hstored : Stored w id song)
    (hlen : (song.Text.length : Int) ≤ maxInt)
    (hpage : 1 ≤ page) (hpageInt : (page : Int) ≤ maxInt)
    (hsize : 1 ≤ pageSize) (hsizeInt : (pageSize : Int) ≤ maxInt)
    (hprod : (((page - 1) * pageSize : Nat) : Int) ≤ maxInt) :
    let totalVerses : Int := (versesOf song).length
    let startIdx : Int := wrapInt (wrapInt ((page : Int) - 1) * (pageSize : Int))
    let endIdx : Int :=
      if wrapInt (startIdx + (pageSize : Int)) > totalVerses then totalVerses
      else wrapInt (startIdx + (pageSize : Int))
    (SongService.GetSongWithVerses w id ⟨page, pageSize⟩).1 = .error errPageExceeds ∨
    (0 ≤ startIdx ∧ startIdx < endIdx ∧ endIdx ≤ totalVerses ∧
      ∃ r, (SongService.GetSongWithVerses w id ⟨page, pageSize⟩).1 = .ok r ∧
        1 ≤ r.Verses.length ∧ r.Verses.length ≤ pageSize) := by
  intro totalVerses startIdx endIdx
  rcases Nat.lt_or_ge ((page - 1) * pageSize) (versesOf song).length with hlt | hge
  · right
    obtain ⟨h1, h2⟩ := pagination_in_range (versesOf_length_le song) hlen hpage hpageInt
      hsize hsizeInt hlt
    have hok := GetSongWithVerses_inside w id song page pageSize hstored hlen hpage hpageInt
      hsize hsizeInt hlt
    have hs : startIdx = (((page - 1) * pageSize : Nat) : Int) := h1
    have he : endIdx = if ((((page - 1) * pageSize + pageSize : Nat) : Int)) > totalVerses
        then totalVerses else ((((page - 1) * pageSize + pageSize : Nat) : Int)) := by
      show (if wrapInt (startIdx + (pageSize : Int)) > totalVerses then totalVerses
        else wrapInt (startIdx + (pageSize : Int))) = _
      rw [hs, h2]
    have ht : totalVerses = ((versesOf song).length : Int) := rfl
    refine ⟨by omega, ?_, ?_, _, hok, ?_, ?_⟩
    · rw [he, hs, ht]; split <;> omega
    · rw [he, ht]; split <;> omega
    · simp only [List.length_drop, List.length_take]; omega
    · simp only [List.length_drop, List.length_take]; omega
  · left
    exact GetSongWithVerses_outside w id song page pageSize hstored hpage hpageInt hprod hge

/-- Witness for C10: page 2 of size 2 of a stored song with three verses is
not refused, so it succeeds with between 1 and 2 verses. -/
theorem getSongWithVerses_slice_in_bounds_witness :
    ∃ r, (SongService.GetSongWithVerses
        ⟨⟨[⟨7, "Muse", "Uprising", "2009-09-07", "a\n\nb\n\nc", "http://x", 0, 0⟩], 8, 1, none⟩, []⟩
        7 ⟨(2 : Nat), (2 : Nat)⟩).1 = .ok r ∧ 1 ≤ r.Verses.length ∧ r.Verses.length ≤ 2 :=
  ((getSongWithVerses_slice_in_bounds
    ⟨⟨[⟨7, "Muse", "Uprising", "2009-09-07", "a\n\nb\n\nc", "http://x", 0, 0⟩], 8, 1, none⟩, []⟩
    7 ⟨7, "Muse", "Uprising", "2009-09-07", "a\n\nb\n\nc", "http://x", 0, 0⟩ 2 2
    (by decide) (by decide) (by decide) (by decide) (by decide) (by decide)
    (by decide)).resolve_left (by decide)).2.2.2

/-! ## Pages below the first -/

/-- The arithmetic of `GetSongWithVerses` for a page number of at most 0
whose product `(page-1)*pageSize` is representable: nothing wraps, the start
index is negative and the end index is the sum. -/
theorem pagination_below_first {page pageSize : Int}
    (hpage : page ≤ 0) (hsize : 1 ≤ pageSize) (hsizeInt : pageSize ≤ maxInt)
    (hprod : minInt ≤ (page - 1) * pageSize) :
    wrapInt (wrapInt (page - 1) * pageSize) = (page - 1) * pageSize ∧
    (page - 1) * pageSize < 0 ∧
    wrapInt ((page - 1) * pageSize + pageSize) = (page - 1) * pageSize + pageSize := by
  unfold maxInt at hsizeInt
  unfold minInt at hprod
  have hle : (page - 1) * pageSize ≤ page - 1 := by
    have h := mul_nonneg (by omega : (0 : Int) ≤ -(page - 1)) (by omega : (0 : Int) ≤ pageSize - 1)
    have hexp : -(page - 1) * (pageSize - 1) = (page - 1) - (page - 1) * pageSize := by ring
    rw [hexp] at h
    omega
  have h1 : wrapInt (page - 1) = page - 1 := by
    unfold wrapInt; omega
  rw [h1]
  generalize (page - 1) * pageSize = P at *
  refine ⟨?_, by omega, ?_⟩
  · unfold wrapInt; omega
  · unfold wrapInt; omega

/-- Counterexample to C11 as stated, for a stored song with three verses.
With page `-(2^62) + 1` and page size 4 the product `(page-1)*pageSize =
-(2^64)` wraps to 0 and the call returns the first three verses.  With the
smallest `int` as page and page size 1, `page-1` wraps to the largest `int`
and the call returns the page-out-of-range error.  Neither call panics. -/
theorem getSongWithVerses_nonpositive_page_not_always_panic :
    Stored ⟨⟨[⟨1, "Muse", "Uprising", "2009-09-07", "a\n\nb\n\nc", "http://x", 0, 0⟩], 2, 1, none⟩, []⟩
        1 ⟨1, "Muse", "Uprising", "2009-09-07", "a\n\nb\n\nc", "http://x", 0, 0⟩ ∧
    (-4611686018427387903 : Int) ≤ 0 ∧ IsInt (-4611686018427387903) ∧
    wrapInt (wrapInt (-4611686018427387903 - 1) * 4) = 0 ∧
    (SongService.GetSongWithVerses
        ⟨⟨[⟨1, "Muse", "Uprising", "2009-09-07", "a\n\nb\n\nc", "http://x", 0, 0⟩], 2, 1, none⟩, []⟩
        1 ⟨-4611686018427387903, 4⟩).1 =
      .ok { toSong := ⟨1, "Muse", "Uprising", "2009-09-07", "a\n\nb\n\nc", "http://x", 0, 0⟩,
            Verses := ["a", "b", "c"], TotalVerses := 3,
            CurrentPage := -4611686018427387903 } ∧
    minInt ≤ 0 ∧ IsInt minInt ∧
    wrapInt (wrapInt (minInt - 1) * 1) = maxInt ∧
    (SongService.GetSongWithVerses
        ⟨⟨[⟨1, "Muse", "Uprising", "2009-09-07", "a\n\nb\n\nc", "http://x", 0, 0⟩], 2, 1, none⟩, []⟩
        1 ⟨minInt, 1⟩).1 = .error errPageExceeds := by
  decide

/-- C11 (amended): `GetSongWithVerses` does not validate its pagination.
For a stored song, a page number of at most 0 and a page size of at least 1
whose product `(page-1)*pageSize` is representable as a Go `int`, the start
index is that product and is negative, the check `startIdx >= totalVerses`
does not fire, the slice expression `verses[startIdx:endIdx]` is out of
bounds, and the call panics: it yields neither a result nor an error. -/
theorem getSongWithVerses_nonpositive_page_panics
    (w : World) (id : Int) (song : Song) (page pageSize : Int)
    (hstored : Stored w id song)
    (hpage : page ≤ 0) (hsize : 1 ≤ pageSize) (hsizeInt : pageSize ≤ maxInt)
    (hprod : minInt ≤ (page - 1) * pageSize) :
    let totalVerses : Int := (versesOf song).length
    let startIdx : Int := wrapInt (wrapInt (page - 1) * pageSize)
    let endIdx : Int :=
      if wrapInt (startIdx + pageSize) > totalVerses then totalVerses
      else wrapInt (startIdx + pageSize)
    startIdx = (page - 1) * pageSize ∧ startIdx < 0 ∧ ¬ (startIdx ≥ totalVerses) ∧
    sliceExpr (versesOf song) startIdx endIdx = none ∧
    (SongService.GetSongWithVerses w id ⟨page, pageSize⟩).1 = .panic ∧
    (∀ r, (SongService.GetSongWithVerses w id ⟨page, pageSize⟩).1 ≠ .ok r) ∧
    (∀ e, (SongService.GetSongWithVerses w id ⟨page, pageSize⟩).1 ≠ .error e) := by
  intro totalVerses startIdx endIdx
  obtain ⟨h1, hneg, _⟩ := pagination_below_first hpage hsize hsizeInt hprod
  have hs : startIdx = (page - 1) * pageSize := h1
  have hlt : startIdx < 0 := by rw [hs]; exact hneg
  have htot : (0 : Int) ≤ totalVerses := Int.ofNat_nonneg _
  have hnot : ¬ (startIdx ≥ totalVerses) := by omega
  have hslice : sliceExpr (versesOf song) startIdx endIdx = none := by
    unfold sliceExpr
    rw [if_neg (by omega)]
  have hpanic : (SongService.GetSongWithVerses w id ⟨page, pageSize⟩).1 = .panic := by
    rw [GetSongWithVerses_stored hstored]
    show (if startIdx ≥ totalVerses then Outcome.error errPageExceeds
      else match sliceExpr (versesOf song) startIdx endIdx with
        | none => Outcome.panic
        | some page' =>
          Outcome.ok ({ toSong := song, Verses := page', TotalVerses := totalVerses,
                        CurrentPage := page } : SongWithVerses)) = Outcome.panic
    rw [if_neg hnot, hslice]
  refine ⟨hs, hlt, hnot, hslice, hpanic, ?_, ?_⟩
  · intro r h; rw [hpanic] at h; cases h
  · intro e h; rw [hpanic] at h; cases h

/-- Witness for C11 (amended): page 0 with page size 4 on a stored song with
three verses panics. -/
theorem getSongWithVerses_nonpositive_page_panics_witness :
    (SongService.GetSongWithVerses
        ⟨⟨[⟨1, "Muse", "Uprising", "2009-09-07", "a\n\nb\n\nc", "http://x", 0, 0⟩], 2, 1, none⟩, []⟩
        1 ⟨0, 4⟩).1 = .panic :=
  (getSongWithVerses_nonpositive_page_panics
    ⟨⟨[⟨1, "Muse", "Uprising", "2009-09-07", "a\n\nb\n\nc", "http://x", 0, 0⟩], 2, 1, none⟩, []⟩
    1 ⟨1, "Muse", "Uprising", "2009-09-07", "a\n\nb\n\nc", "http://x", 0, 0⟩ 0 4
    (by decide) (by decide) (by decide) (by decide) (by decide)).2.2.2.2.1

/-! ## The pages of a song -/

/-- C12: for a stored song with `n` verses and a page size `s` of at least 1,
the pages `1 .. ceil(n/s)` of `GetSongWithVerses` all succeed, the
concatenation of their verses in page order is the full verse list, and
joining the verse list with `"\n\n"` gives back the trimmed text.  The page
size is a Go `int` and the text is a Go string (its length fits in an
`int`). -/
theorem getSongWithVerses_pages_partition_verses
    (w : World) (id : Int) (song : Song) (pageSize : Nat)
    (hstored : Stored w id song)
    (hlen : (song.Text.length : Int) ≤ maxInt)
    (hsize : 1 ≤ pageSize) (hsizeInt : (pageSize : Int) ≤ maxInt) :
    ∃ pages : List SongWithVerses,
      pages.length = ((versesOf song).length + pageSize - 1) / pageSize ∧
      (∀ (i : Nat) (h : i < pages.length),
        (SongService.GetSongWithVerses w id ⟨((i + 1 : Nat) : Int), pageSize⟩).1
          = .ok (pages.get ⟨i, h⟩)) ∧
      (pages.map (fun r => r.Verses)).flatten = versesOf song ∧
      Join (versesOf song) "\n\n" = TrimSpace song.Text := by
  have hvl := versesOf_length_le song
  have hmod := Nat.mod_lt ((versesOf song).length + pageSize - 1) (by omega : pageSize > 0)
  have hdiv := Nat.div_add_mod ((versesOf song).length + pageSize - 1) pageSize
  have hcover : (versesOf song).length
      ≤ (((versesOf song).length + pageSize - 1) / pageSize) * pageSize := by
    rw [Nat.mul_comm]
    generalize pageSize * (((versesOf song).length + pageSize - 1) / pageSize) = q at hdiv
    omega
  have hinside : ∀ i, i < ((versesOf song).length + pageSize - 1) / pageSize →
      i * pageSize < (versesOf song).length ∧ i < (versesOf song).length := by
    intro i hi
    have h1 : (i + 1) * pageSize ≤ (versesOf song).length + pageSize - 1 :=
      (Nat.le_div_iff_mul_le (by omega)).mp hi
    rw [Nat.succ_mul] at h1
    have h2 : i ≤ i * pageSize := Nat.le_mul_of_pos_right i (by omega)
    constructor <;> omega
  refine ⟨(List.range (((versesOf song).length + pageSize - 1) / pageSize)).map
    (fun i => ({ toSong := song,
                 Verses := ((versesOf song).take
                   (min (i * pageSize + pageSize) (versesOf song).length)).drop (i * pageSize),
                 TotalVerses := (versesOf song).length,
                 CurrentPage := ((i + 1 : Nat) : Int) } : SongWithVerses)), ?_, ?_, ?_, ?_⟩
  · rw [List.length_map, List.length_range]
  · intro i h
    have hi : i < ((versesOf song).length + pageSize - 1) / pageSize := by
      rw [List.length_map, List.length_range] at h
      exact h
    obtain ⟨hstart, hlt⟩ := hinside i hi
    have hpageInt : ((i + 1 : Nat) : Int) ≤ maxInt := by
      unfold maxInt at hlen ⊢
      omega
    have hok := GetSongWithVerses_inside w id song (i + 1) pageSize hstored hlen (by omega)
      hpageInt hsize hsizeInt (by rw [Nat.add_sub_cancel]; exact hstart)
    rw [hok, List.get_eq_getElem, List.getElem_map, List.getElem_range]
    simp only [Nat.add_sub_cancel]
  · simp only [List.map_map, Function.comp_def]
    rw [pages_flatten, List.take_of_length_le hcover]
  · exact Join_Split (TrimSpace song.Text)

/-- Witness for C12: a stored song with three verses and page size 2 has two
pages, `["a", "b"]` and `["c"]`. -/
theorem getSongWithVerses_pages_partition_verses_witness :
    ∃ pages : List SongWithVerses,
      pages.length = (3 + 2 - 1) / 2 ∧
      (∀ (i : Nat) (h : i < pages.length),
        (SongService.GetSongWithVerses
          ⟨⟨[⟨7, "Muse", "Uprising", "2009-09-07", " a\n\nb\n\nc\n", "http://x", 0, 0⟩],
            8, 1, none⟩, []⟩ 7 ⟨((i + 1 : Nat) : Int), (2 : Nat)⟩).1
          = .ok (pages.get ⟨i, h⟩)) ∧
      (pages.map (fun r => r.Verses)).flatten = ["a", "b", "c"] ∧
      Join ["a", "b", "c"] "\n\n" = "a\n\nb\n\nc" :=
  getSongWithVerses_pages_partition_verses
    ⟨⟨[⟨7, "Muse", "Uprising", "2009-09-07", " a\n\nb\n\nc\n", "http://x", 0, 0⟩], 8, 1, none⟩, []⟩
    7 ⟨7, "Muse", "Uprising", "2009-09-07", " a\n\nb\n\nc\n", "http://x", 0, 0⟩ 2
    (by decide) (by decide) (by decide) (by decide)

end MusicLibrary
